import Mathlib

set_option maxHeartbeats 1000000

/-!
# Verification of the Best_Ball_Drafting draft simulator

Shallow embedding of the two draft engines of the repository:

* `Tab`  — `src/Draft_Optimizer/Qlearning_Drafter.py` (tabular Q-learning variant);
* `Deep` — `src/Draft_Optimizer/DeepQlearning_Drafter.py` (function-approximated variant).

Modelling conventions:

* Python floats are modelled as `ℚ` (the claims under scrutiny are about the
  algebraic formulas, not about rounding).
* A pandas `DataFrame` row is a `Player`; the frame itself is a `List Player`
  kept in row order; the pandas index label of a row is the field `idx`.
* Python exceptions (`raise`, pandas `KeyError`, `IndexError`) are modelled by
  `Except DraftErr`.
* The global random source (`random.random`, `random.choice`,
  `torch.multinomial`) is modelled by an oracle stream indexed by a turn
  counter (`pickCount`), threaded through the engine state.
* The torch neural network of the approximated variant is out of scope
  (opaque per the spec); it appears as an opaque function field
  `q_network : State → List ℚ` that the engine never modifies.
* The fields `pickCount` and `pickLog` of the engine states are observation
  instrumentation (the RNG cursor and the global sequence of drafted names, in
  pick order); no engine decision reads them.
-/

/-- The fixed finite set of item categories (roster positions). -/
inductive Pos where
  | QB | RB | WR | TE
  deriving DecidableEq, Repr

/-- The categories in the (insertion) order of the Python position dictionaries. -/
def posList : List Pos := [Pos.QB, Pos.RB, Pos.WR, Pos.TE]

/-- One row of the draft board: pandas index label, player name, position and
projected fantasy points. -/
structure Player where
  idx : Nat
  player_name : String
  position : Pos
  projected_points : ℚ
  deriving DecidableEq, Repr

/-- Errors of the engines: Python `IndexError`, the explicit
`raise Exception("There are no valid players ...")` of the tabular engine,
pandas `KeyError` on `.loc`/`.drop` of an absent label, and the
`ValueError` raised when unpacking `zip(*[])` in `ReplayBuffer.sample`. -/
inductive DraftErr where
  | badIndex | noValidPlayers | notFound | insufficientData | unpackEmpty
  deriving DecidableEq, Repr

/-- Pandas `pool.drop(label)`: removes every row whose index label is
`label`; raises `KeyError` (here `.notFound`) when no such row exists. -/
def dropIdx (pool : List Player) (label : Nat) : Except DraftErr (List Player) :=
  if pool.any (fun p => p.idx = label) then
    .ok (pool.filter (fun p => p.idx ≠ label))
  else .error .notFound

/-- Increment one entry of a per-position counter dictionary. -/
def bumpCount (c : Pos → Nat) (p : Pos) : Pos → Nat :=
  fun q => if q = p then c q + 1 else c q

/-- Python `max(l, key := f)`: the first element of `l` whose key is
maximal; on an empty list it returns `0`, matching the `default=0` argument
used at the single call site in the source. -/
def argmaxKey (f : Nat → ℚ) : List Nat → Nat
  | [] => 0
  | x :: xs => xs.foldl (fun best y => if f y > f best then y else best) x

/-- The maximum of `f` over a list (`0` on the empty list); used to state what
`argmaxKey` achieves. -/
def maxOver (f : Nat → ℚ) : List Nat → ℚ
  | [] => 0
  | x :: xs => xs.foldl (fun m y => max m (f y)) (f x)

/-- Model of `torch.argmax` over a vector of values: index of the first maximal entry
(`0` on the empty vector, which the source never produces). -/
def argIdxMax (l : List ℚ) : Nat :=
  match l with
  | [] => 0
  | v :: vs =>
    (vs.foldl
      (fun acc w =>
        if w > acc.2.2 then (acc.2.1, acc.2.1 + 1, w) else (acc.1, acc.2.1 + 1, acc.2.2))
      ((0 : Nat), (1 : Nat), v)).1

/-- Insert a string into a sorted list (helper for `sortStr`). -/
def insertSorted (s : String) : List String → List String
  | [] => [s]
  | x :: xs => if s ≤ x then s :: x :: xs else x :: insertSorted s xs

/-- Python's `sorted` on a list of strings (insertion sort; only the fact that
it is a deterministic function of the input matters below). -/
def sortStr (l : List String) : List String :=
  l.foldr insertSorted []

/-- The cache `self.max_points_by_position` of the approximated variant:
`player_data.groupby("position")["projected_points"].max()`.  The `[]` case is
the absent-key case of the pandas series (a lookup there would raise; it is
unreachable whenever an item of the category exists in the data). -/
def maxPointsByPosition (data : List Player) (pos : Pos) : ℚ :=
  match (data.filter (fun q => q.position = pos)).map (fun q => q.projected_points) with
  | [] => 0
  | v :: vs => vs.foldl max v

/-- The shared experience buffer (`ReplayBuffer` of the approximated variant).
`add` mirrors `if len(buffer) >= capacity: buffer.pop(0); buffer.append(e)`;
`list.pop(0)` is modelled by `List.tail` (on a non-empty buffer they agree;
`pop(0)` of an empty buffer — reachable only with `capacity = 0` — raises in
Python). -/
structure ReplayBuffer (α : Type) where
  buffer : List α
  capacity : Nat

/-- Method `ReplayBuffer.add`: evict the oldest entry when at capacity, then append. -/
def ReplayBuffer.add (rb : ReplayBuffer α) (experience : α) : ReplayBuffer α :=
  let b := if rb.buffer.length ≥ rb.capacity then rb.buffer.tail else rb.buffer
  { rb with buffer := b ++ [experience] }

/-- Method `ReplayBuffer.sample`: `np.random.choice(len(buffer), n, replace=False)`
followed by gathering the batch and unpacking `zip(*batch)`.

The numpy draw is modelled by the oracle argument `indices` (numpy's contract:
when `n ≤ len(buffer)` it returns `n` distinct indices below `len(buffer)`,
drawn uniformly; when `n > len(buffer)` it raises `ValueError`, the condition
the spec names `InsufficientData`).  The final `zip(*batch)` unpacking raises
`ValueError` on an empty batch (modelled by `.unpackEmpty`); the stacking of
the five components into tensors is mere repackaging and is elided — the
result is the list of sampled experiences. -/
def ReplayBuffer.sample [Inhabited α] (rb : ReplayBuffer α) (n : Nat)
    (indices : List Nat) : Except DraftErr (List α) :=
  if rb.buffer.length < n then .error .insufficientData
  else
    let batch := indices.map (fun i => rb.buffer.getD i default)
    match batch with
    | [] => .error .unpackEmpty
    | _ => .ok batch

namespace Tab

/-- A tabular state: `(tuple(sorted(drafted_players)), round_number)`. -/
abbrev TState := List String × Nat

/-- The module-level `position_limits` dictionary of the tabular file:
`{"QB": 3, "RB": 6, "WR": 8, "TE": 3}`. -/
def position_limits : Pos → Nat
  | Pos.QB => 3
  | Pos.RB => 6
  | Pos.WR => 8
  | Pos.TE => 3

/-- A tabular Q-learning agent.  The `defaultdict(float)` Q-table is a total
function from `(state, player index)` keys to values, default `0`. -/
structure QAgent where
  team_id : Nat
  learning_rate : ℚ
  discount_factor : ℚ
  epsilon : ℚ
  epsilon_decay : ℚ
  epsilon_min : ℚ
  q_table : TState × Nat → ℚ
  drafted_players : List String
  total_reward : ℚ
  position_counts : Pos → Nat

/-- Method `QAgent.reset_agent`: reset the per-episode state, keeping the learned
Q-table and the exploration schedule. -/
def QAgent.reset_agent (ag : QAgent) : QAgent :=
  { ag with drafted_players := [], total_reward := 0, position_counts := fun _ => 0 }

/-- Method `QAgent.get_state`: `(tuple(sorted(self.drafted_players)), round_number)`
(the `available_players` argument is unused in the source). -/
def QAgent.get_state (ag : QAgent) (_available_players : List Player)
    (round_number : Nat) : TState :=
  (sortStr ag.drafted_players, round_number)

/-- Method `QAgent.choose_action`, epsilon-greedy.  `rv` is the value drawn by
`random.random()` (a member of `[0,1)`), `ri` drives `random.choice` over the
valid players' index list. -/
def QAgent.choose_action (ag : QAgent) (state : TState)
    (available_players : List Player) (rv : ℚ) (ri : Nat) : Nat :=
  let idxs := available_players.map (fun p => p.idx)
  if rv < ag.epsilon then idxs.getD (ri % idxs.length) 0
  else argmaxKey (fun player => ag.q_table (state, player)) idxs

/-- Method `QAgent.update_q_table`: the single-step bootstrapped update.  Note that
`best_next_action` is computed by Python's `max(available_players.index, key,
default=0)`: on an empty index the *default `0` is itself used as a player
index* into the Q-table. -/
def QAgent.update_q_table (ag : QAgent) (state : TState) (action : Nat)
    (reward : ℚ) (next_state : TState) (available_players : List Player) : QAgent :=
  let idxs := available_players.map (fun p => p.idx)
  let best_next_action := argmaxKey (fun player => ag.q_table (next_state, player)) idxs
  let td_target := reward + ag.discount_factor * ag.q_table (next_state, best_next_action)
  let td_delta := td_target - ag.q_table (state, action)
  { ag with q_table := fun k =>
      if k = (state, action) then ag.q_table (state, action) + ag.learning_rate * td_delta
      else ag.q_table k }

/-- The epsilon decay step performed by `FantasyDraft.train` after each
episode: `agent.epsilon = max(agent.epsilon * agent.epsilon_decay,
agent.epsilon_min)`. -/
def QAgent.decayEpsilon (ag : QAgent) : QAgent :=
  { ag with epsilon := max (ag.epsilon * ag.epsilon_decay) ag.epsilon_min }

/-- The tabular draft simulator (class `FantasyDraft` of
`Qlearning_Drafter.py`).  `pickCount`/`pickLog` are observation
instrumentation, see the file header. -/
structure FantasyDraft where
  player_data : List Player
  num_teams : Nat
  num_rounds : Nat
  agents : List QAgent
  available_players : List Player
  current_round : Nat
  draft_order : List Nat
  pickCount : Nat
  pickLog : List String

/-- Method `FantasyDraft.reset_draft`. -/
def FantasyDraft.reset_draft (d : FantasyDraft) : FantasyDraft :=
  { d with
    available_players := d.player_data,
    current_round := 0,
    draft_order := List.range d.num_teams,
    agents := d.agents.map QAgent.reset_agent,
    pickLog := [] }

/-- The body of the per-team loop of `FantasyDraft.run_episode` /
`FantasyDraft.run_draft`.  The two source loops are identical except that
`run_draft` first sets `agent.epsilon, agent.epsilon_min = 0, 0`; the flag
`zeroEps` selects between them. -/
def FantasyDraft.runTurn (rng : Nat → ℚ × Nat) (zeroEps : Bool)
    (d : FantasyDraft) (team : Nat) : Except DraftErr FantasyDraft :=
  match d.agents[team]? with
  | none => .error .badIndex
  | some agent0 =>
    let agent := if zeroEps then { agent0 with epsilon := 0, epsilon_min := 0 } else agent0
    let state := agent.get_state d.available_players d.current_round
    let valid_players := d.available_players.filter
      (fun p => agent.position_counts p.position < position_limits p.position)
    if valid_players = [] then .error .noValidPlayers
    else
      let rc := rng d.pickCount
      let action := agent.choose_action state valid_players rc.1 rc.2
      match d.available_players.find? (fun p => p.idx = action) with
      | none => .error .notFound
      | some drafted_player =>
        let agent1 := { agent with
          drafted_players := agent.drafted_players ++ [drafted_player.player_name],
          position_counts := bumpCount agent.position_counts drafted_player.position,
          total_reward := agent.total_reward + drafted_player.projected_points }
        match dropIdx d.available_players action with
        | .error e => .error e
        | .ok newAvail =>
          let next_state := agent1.get_state newAvail (d.current_round + 1)
          let agent2 := agent1.update_q_table state action
            drafted_player.projected_points next_state newAvail
          .ok { d with
            agents := d.agents.set team agent2,
            available_players := newAvail,
            pickCount := d.pickCount + 1,
            pickLog := d.pickLog ++ [drafted_player.player_name] }

/-- Run the turns of the agents of `order` in sequence, propagating errors. -/
def foldTurns {σ : Type} (f : σ → Nat → Except DraftErr σ) :
    σ → List Nat → Except DraftErr σ
  | st, [] => .ok st
  | st, t :: ts =>
    match f st t with
    | .error e => .error e
    | .ok st2 => foldTurns f st2 ts

/-- The `while self.current_round < self.num_rounds` loop: one iteration runs
every team of the current draft order, then increments the round and reverses
the order (snake draft).  The argument is the number of remaining rounds. -/
def FantasyDraft.runRounds (rng : Nat → ℚ × Nat) (zeroEps : Bool) :
    Nat → FantasyDraft → Except DraftErr FantasyDraft
  | 0, d => .ok d
  | n + 1, d =>
    match foldTurns (FantasyDraft.runTurn rng zeroEps) d d.draft_order with
    | .error e => .error e
    | .ok d2 => FantasyDraft.runRounds rng zeroEps n
        { d2 with current_round := d2.current_round + 1,
                  draft_order := d2.draft_order.reverse }

/-- Method `FantasyDraft.run_episode` (epsilon-greedy episode). -/
def FantasyDraft.run_episode (rng : Nat → ℚ × Nat) (d : FantasyDraft) :
    Except DraftErr FantasyDraft :=
  FantasyDraft.runRounds rng false d.num_rounds d.reset_draft

/-- Method `FantasyDraft.run_draft` (full draft with exploration forced off). -/
def FantasyDraft.run_draft (rng : Nat → ℚ × Nat) (d : FantasyDraft) :
    Except DraftErr FantasyDraft :=
  FantasyDraft.runRounds rng true d.num_rounds d.reset_draft

end Tab

namespace Deep

/-- A deep-variant state vector (the contents of the float tensor built by
`QAgent.get_state`: position counts, hence naturals). -/
abbrev State := List Nat

/-- One experience tuple `(state, action, reward, next_state, done)`. -/
abbrev Exp := State × Nat × ℚ × State × Bool

/-- The list `position_counts.values()` in the dictionary insertion order
`QB, RB, WR, TE`. -/
def countsValues (c : Pos → Nat) : List Nat :=
  [c Pos.QB, c Pos.RB, c Pos.WR, c Pos.TE]

/-- A deep Q-learning agent.  The torch networks and optimizer are out of
scope (opaque per the spec); the live network appears as the opaque function
`q_network`, which nothing in the embedded engine modifies. -/
structure QAgent where
  team_id : Nat
  position_counts : Pos → Nat
  drafted_players : List String
  total_reward : ℚ
  total_points : ℚ
  q_network : State → List ℚ
  temperature : ℚ
  temperature_min : ℚ
  temperature_decay : ℚ

/-- Method `QAgent.reset_agent`. -/
def QAgent.reset_agent (ag : QAgent) : QAgent :=
  { ag with drafted_players := [], total_reward := 0, total_points := 0,
            position_counts := fun _ => 0 }

/-- Method `QAgent.get_state`: own position counts followed by every other agent's
position counts, in the stable order of the `all_agents` list. -/
def QAgent.get_state (ag : QAgent) (all_agents : List QAgent) : State :=
  countsValues ag.position_counts ++
    (all_agents.filter (fun a => a.team_id ≠ ag.team_id)).foldr
      (fun a acc => countsValues a.position_counts ++ acc) []

/-- Method `QAgent.choose_action`.  In exploitative mode the action is
`torch.argmax` of the live network's output; in exploring mode the action is
drawn by `torch.multinomial` from the softmax distribution — that draw is the
oracle argument `sampled`. -/
def QAgent.choose_action (ag : QAgent) (state : State) (exploit : Bool)
    (sampled : Nat) : Nat :=
  if exploit then argIdxMax (ag.q_network state) else sampled

/-- The deep draft simulator (class `FantasyDraft` of
`DeepQlearning_Drafter.py`).  `pickCount`/`pickLog` are observation
instrumentation, see the file header. -/
structure FantasyDraft where
  player_data : List Player
  num_teams : Nat
  num_rounds : Nat
  draft_order : List Nat
  position_limits : Pos → Nat
  agents : List QAgent
  replay_buffer : ReplayBuffer Exp
  available_players : List Player
  current_round : Nat
  pickCount : Nat
  pickLog : List String

/-- Method `FantasyDraft.get_reward` (the RewardModel): normalized base reward,
negated and scaled by the overdraft on a limit violation, clamped below at
`-1`. -/
def FantasyDraft.get_reward (d : FantasyDraft) (drafted_player : Player)
    (agent : QAgent) : ℚ :=
  let reward := drafted_player.projected_points /
    maxPointsByPosition d.player_data drafted_player.position
  if agent.position_counts drafted_player.position >
      d.position_limits drafted_player.position then
    let over0 : ℚ := ((agent.position_counts drafted_player.position -
      d.position_limits drafted_player.position : Nat) : ℚ)
    let over_draft_penalty :=
      if posList.any (fun p => agent.position_counts p = 0) then over0 + 1 else over0
    let reward2 := -(over_draft_penalty * reward)
    if reward2 < -1 then -1 else reward2
  else reward

/-- Method `FantasyDraft.reset_draft`. -/
def FantasyDraft.reset_draft (d : FantasyDraft) : FantasyDraft :=
  { d with
    available_players := d.player_data,
    current_round := 0,
    draft_order := List.range d.num_teams,
    agents := d.agents.map QAgent.reset_agent,
    pickLog := [] }

/-- The body of the per-team loop of the deep `FantasyDraft.run_episode`:
compute the state, choose a category, apply the invalid-action penalty if the
category is exhausted, otherwise draft the first (best, as the pool is kept
sorted) player of that category, reward, record the experience, and remove
the player from the pool. -/
def FantasyDraft.runTurn (rng : Nat → Nat) (exploit : Bool)
    (d : FantasyDraft) (team : Nat) : Except DraftErr FantasyDraft :=
  match d.agents[team]? with
  | none => .error .badIndex
  | some agent =>
    let state := agent.get_state d.agents
    let action := agent.choose_action state exploit (rng d.pickCount)
    match posList[action]? with
    | none => .error .badIndex
    | some position =>
      match d.available_players.filter (fun p => p.position = position) with
      | [] =>
        let reward : ℚ := -1
        let agent1 := { agent with total_reward := agent.total_reward + reward }
        let agents1 := d.agents.set team agent1
        let next_state := agent1.get_state agents1
        let experience : Exp := (state, action, reward, next_state, false)
        .ok { d with
              agents := agents1,
              replay_buffer := d.replay_buffer.add experience,
              pickCount := d.pickCount + 1 }
      | drafted_player :: _ =>
        let agent1 := { agent with
          total_points := agent.total_points + drafted_player.projected_points,
          drafted_players := agent.drafted_players ++ [drafted_player.player_name],
          position_counts := bumpCount agent.position_counts drafted_player.position }
        let reward := d.get_reward drafted_player agent1
        let agent2 := { agent1 with total_reward := agent1.total_reward + reward }
        let agents1 := d.agents.set team agent2
        let next_state := agent2.get_state agents1
        let experience : Exp := (state, action, reward, next_state, false)
        match dropIdx d.available_players drafted_player.idx with
        | .error e => .error e
        | .ok newAvail =>
          .ok { d with
                agents := agents1,
                available_players := newAvail,
                replay_buffer := d.replay_buffer.add experience,
                pickCount := d.pickCount + 1,
                pickLog := d.pickLog ++ [drafted_player.player_name] }

/-- The round loop of the deep `run_episode` (same snake structure as the
tabular variant). -/
def FantasyDraft.runRounds (rng : Nat → Nat) (exploit : Bool) :
    Nat → FantasyDraft → Except DraftErr FantasyDraft
  | 0, d => .ok d
  | n + 1, d =>
    match Tab.foldTurns (FantasyDraft.runTurn rng exploit) d d.draft_order with
    | .error e => .error e
    | .ok d2 => FantasyDraft.runRounds rng exploit n
        { d2 with current_round := d2.current_round + 1,
                  draft_order := d2.draft_order.reverse }

/-- The deep `FantasyDraft.run_episode`. -/
def FantasyDraft.run_episode (rng : Nat → Nat) (exploit : Bool)
    (d : FantasyDraft) : Except DraftErr FantasyDraft :=
  FantasyDraft.runRounds rng exploit d.num_rounds d.reset_draft

end Deep

/-! ## Spec-side definitions and concrete instances -/

/-- The RewardModel formula as the spec states it (C3): base reward when the
already-incremented counter respects the limit, otherwise
`max (−1) (−(overdraft × base))` with the overdraft incremented by `1` when
some category counter is still zero.  To be compared with
`Deep.FantasyDraft.get_reward`, which is translated from the source. -/
def rewardSpecC3 (maxPts : Pos → ℚ) (limits : Pos → Nat) (counts : Pos → Nat)
    (pp : ℚ) (pos : Pos) : ℚ :=
  let base := pp / maxPts pos
  if counts pos ≤ limits pos then base
  else
    let overdraft : ℚ := ((counts pos - limits pos : Nat) : ℚ) +
      (if posList.any (fun p => counts p = 0) then 1 else 0)
    max (-1) (-(overdraft * base))

/-- A concrete tabular agent whose Q-table already holds a value at every key
with player index `0` — in particular at the key Python's
`max(..., default=0)` silently addresses when the passed player list is
empty. -/
def cexAgentC1 : Tab.QAgent :=
  { team_id := 0, learning_rate := 1/5, discount_factor := 9/10, epsilon := 1,
    epsilon_decay := 1, epsilon_min := 0,
    q_table := fun k => if k.2 = 0 then 1 else 0,
    drafted_players := [], total_reward := 0, position_counts := fun _ => 0 }

/-- Two concrete draft-board rows used by the concrete counterexamples. -/
def playerA : Player :=
  { idx := 0, player_name := "A", position := Pos.QB, projected_points := 0 }

/-- Second concrete row. -/
def playerB : Player :=
  { idx := 1, player_name := "B", position := Pos.QB, projected_points := 5 }

/-- A concrete tabular agent with a pre-trained Q-table: at the fresh state
`([], 0)` player `0` is valued `10` and player `1` is valued `9`. -/
def cexAgentC9 : Tab.QAgent :=
  { team_id := 0, learning_rate := 1/5, discount_factor := 9/10, epsilon := 1,
    epsilon_decay := 1, epsilon_min := 1/20,
    q_table := fun k =>
      if k = ((([] : List String), 0), 0) then 10
      else if k = ((([] : List String), 0), 1) then 9 else 0,
    drafted_players := [], total_reward := 0, position_counts := fun _ => 0 }

/-- A concrete one-team, one-round tabular draft over the two players. -/
def cexDraftTab : Tab.FantasyDraft :=
  { player_data := [playerA, playerB], num_teams := 1, num_rounds := 1,
    agents := [cexAgentC9], available_players := [playerA, playerB],
    current_round := 0, draft_order := [0], pickCount := 0, pickLog := [] }

/-- A concrete random stream (its values are irrelevant once exploration is
off: `random.random() ∈ [0, 1)` never beats `ε = 0`). -/
def trng : Nat → ℚ × Nat := fun _ => (0, 0)

/-- The agent state after the first exploration-free draft of `cexDraftTab`:
player `A` was picked (argmax, value 10) and the Q-update lowered the entry
for `(([], 0)), 0)` from `10` to `8`. -/
def cexD1agent : Tab.QAgent :=
  { team_id := 0, learning_rate := 1/5, discount_factor := 9/10, epsilon := 0,
    epsilon_decay := 1, epsilon_min := 0,
    q_table := fun k =>
      if k = ((([] : List String), 0), 0) then 8
      else if k = ((([] : List String), 0), 0) then 10
      else if k = ((([] : List String), 0), 1) then 9 else 0,
    drafted_players := ["A"], total_reward := 0,
    position_counts := bumpCount (fun _ => 0) Pos.QB }

/-- The full simulator state after the first `run_draft` of `cexDraftTab`. -/
def cexD1 : Tab.FantasyDraft :=
  { player_data := [playerA, playerB], num_teams := 1, num_rounds := 1,
    agents := [cexD1agent], available_players := [playerB],
    current_round := 1, draft_order := [0], pickCount := 1, pickLog := ["A"] }

/-- The agent state after the second consecutive `run_draft`: this time the
argmax at `([], 0)` is player `1` (value `9 > 8`), so `B` is picked, and the
update writes `9 + (1/5)·(5 − 9) = 41/5` at `(([], 0)), 1)`. -/
def cexD2agent : Tab.QAgent :=
  { team_id := 0, learning_rate := 1/5, discount_factor := 9/10, epsilon := 0,
    epsilon_decay := 1, epsilon_min := 0,
    q_table := fun k =>
      if k = ((([] : List String), 0), 1) then 41/5
      else if k = ((([] : List String), 0), 0) then 8
      else if k = ((([] : List String), 0), 0) then 10
      else if k = ((([] : List String), 0), 1) then 9 else 0,
    drafted_players := ["B"], total_reward := 5,
    position_counts := bumpCount (fun _ => 0) Pos.QB }

/-- The full simulator state after the second consecutive `run_draft`. -/
def cexD2 : Tab.FantasyDraft :=
  { player_data := [playerA, playerB], num_teams := 1, num_rounds := 1,
    agents := [cexD2agent], available_players := [playerA],
    current_round := 1, draft_order := [0], pickCount := 2, pickLog := ["B"] }

/-- A concrete player for the deep-variant witnesses. -/
def pQB : Player :=
  { idx := 0, player_name := "QB1", position := Pos.QB, projected_points := 5 }

/-- The deep variant's configured position limits. -/
def deepLimits : Pos → Nat
  | Pos.QB => 3
  | Pos.RB => 7
  | Pos.WR => 8
  | Pos.TE => 3

/-- A concrete deep agent whose live network always prefers action 0 (QB). -/
def cagentDeep : Deep.QAgent :=
  { team_id := 0, position_counts := fun _ => 0, drafted_players := [],
    total_reward := 0, total_points := 0,
    q_network := fun _ => [1, 0, 0, 0],
    temperature := 1, temperature_min := 1/10, temperature_decay := 1 }

/-- A concrete one-team, one-round deep draft. -/
def cdraftDeep : Deep.FantasyDraft :=
  { player_data := [pQB], num_teams := 1, num_rounds := 1,
    draft_order := [0], position_limits := deepLimits,
    agents := [cagentDeep], replay_buffer := ⟨[], 1200⟩,
    available_players := [pQB], current_round := 0, pickCount := 0,
    pickLog := [] }

/-- A concrete oracle for the deep engine's exploration draw (never consulted
in exploit mode). -/
def crngD : Nat → Nat := fun _ => 0

/-- The per-agent data that persists across episodes in the deep variant:
team identity, the live network, and the exploration schedule. -/
def agentPers (a : Deep.QAgent) : Nat × (Deep.State → List ℚ) × ℚ × ℚ × ℚ :=
  (a.team_id, a.q_network, a.temperature, a.temperature_min, a.temperature_decay)

/-- Observational equality of two deep simulator states: every field that can
influence the sequence of exploit-mode picks (everything except the shared
replay buffer and the RNG cursor). -/
def dObsEq (d1 d2 : Deep.FantasyDraft) : Prop :=
  d1.player_data = d2.player_data ∧ d1.num_teams = d2.num_teams ∧
  d1.num_rounds = d2.num_rounds ∧ d1.draft_order = d2.draft_order ∧
  d1.position_limits = d2.position_limits ∧ d1.agents = d2.agents ∧
  d1.available_players = d2.available_players ∧
  d1.current_round = d2.current_round ∧ d1.pickLog = d2.pickLog

/-- The data of a deep simulator that persists through a whole episode:
configuration, the dataset, and each agent's persistent part. -/
def dPersist (d : Deep.FantasyDraft) :=
  (d.player_data, d.num_teams, d.num_rounds, d.position_limits,
   d.agents.map agentPers)

/-- The concrete deep draft with an exhausted resource pool. -/
def cdraftDeepEmpty : Deep.FantasyDraft := { cdraftDeep with available_players := [] }

/-- The simulator state after a single turn of `cexDraftTab` (before the
round-end bookkeeping). -/
def cexT1 : Tab.FantasyDraft :=
  { player_data := [playerA, playerB], num_teams := 1, num_rounds := 1,
    agents := [cexD1agent], available_players := [playerB],
    current_round := 0, draft_order := [0], pickCount := 1, pickLog := ["A"] }

/-- The deep simulator state after a penalized (empty-category) turn of
`cdraftDeepEmpty`. -/
def cexDeepPen : Deep.FantasyDraft :=
  { cdraftDeepEmpty with
    agents := [{ cagentDeep with total_reward := -1 }],
    replay_buffer := ⟨[([0, 0, 0, 0], 0, -1, [0, 0, 0, 0], false)], 1200⟩,
    pickCount := 1 }

/-- A deep draft with no teams (degenerate but well-formed: every episode is
a pure round-counting loop). -/
def cexDeepNoTeams : Deep.FantasyDraft :=
  { player_data := [], num_teams := 0, num_rounds := 1, draft_order := [],
    position_limits := deepLimits, agents := [], replay_buffer := ⟨[], 5⟩,
    available_players := [], current_round := 0, pickCount := 0, pickLog := [] }

/-- Rebuild a freshly-reset agent from its persistent part (shows that
`reset_agent` factors through `agentPers`). -/
def mkResetAgent (x : Nat × (Deep.State → List ℚ) × ℚ × ℚ × ℚ) : Deep.QAgent :=
  { team_id := x.1, position_counts := fun _ => 0, drafted_players := [],
    total_reward := 0, total_points := 0, q_network := x.2.1,
    temperature := x.2.2.1, temperature_min := x.2.2.2.1,
    temperature_decay := x.2.2.2.2 }

/-- Predicate: every agent at an index satisfying `S` has both epsilons zeroed. -/
def TabEpsZeroOn (S : Nat → Prop) (d : Tab.FantasyDraft) : Prop :=
  ∀ i, S i → ∀ a, d.agents[i]? = some a → a.epsilon = 0 ∧ a.epsilon_min = 0

/-! ## Helper lemmas -/

/-- The key of Python's `max(l, key := f)` result is the maximum key. -/
theorem foldl_argmax_eq (f : Nat → ℚ) :
    ∀ (xs : List Nat) (x : Nat),
      f (xs.foldl (fun best y => if f y > f best then y else best) x) =
        xs.foldl (fun m y => max m (f y)) (f x)
  | [], _ => rfl
  | y :: ys, x => by
    simp only [List.foldl]
    rw [foldl_argmax_eq f ys (if f y > f x then y else x)]
    congr 1
    split
    · next h => exact (max_eq_right h.le).symm
    · next h => exact (max_eq_left (not_lt.mp h)).symm

theorem argmaxKey_eq_maxOver (f : Nat → ℚ) (x : Nat) (xs : List Nat) :
    f (argmaxKey f (x :: xs)) = maxOver f (x :: xs) :=
  foldl_argmax_eq f xs x

/-- Python's `max(l, key := f)` returns an element of `l`. -/
theorem foldl_argmax_mem (f : Nat → ℚ) :
    ∀ (xs : List Nat) (x : Nat),
      xs.foldl (fun best y => if f y > f best then y else best) x ∈ x :: xs
  | [], _ => by simp
  | y :: ys, x => by
    have h := foldl_argmax_mem f ys (if f y > f x then y else x)
    simp only [List.foldl]
    rcases List.mem_cons.mp h with h1 | h1
    · rw [h1]
      split
      · simp
      · simp
    · exact List.mem_cons_of_mem _ (List.mem_cons_of_mem _ h1)

theorem argmaxKey_mem (f : Nat → ℚ) (x : Nat) (xs : List Nat) :
    argmaxKey f (x :: xs) ∈ x :: xs :=
  foldl_argmax_mem f xs x

/-! ## C1 — the tabular Q-update formula -/

/-- C1 counterexample: calling `update_q_table` with an empty legal-next-action
list does *not* use a zero bootstrapped term.  With `α = 1/5`, `γ = 9/10`,
`r = 2`, `table[(s≥, 0)] = 1` the new entry is `29/50`, not the `2/5` the
claim's formula (`target = r` when `L` is empty) dictates. -/
theorem C1_counterexample :
    (cexAgentC1.update_q_table (([], 0) : Tab.TState) 7 2 ((["x"], 1) : Tab.TState) []).q_table
        ((([], 0) : Tab.TState), 7) ≠
      cexAgentC1.q_table ((([], 0) : Tab.TState), 7) +
        cexAgentC1.learning_rate * ((2 + cexAgentC1.discount_factor * 0) -
          cexAgentC1.q_table ((([], 0) : Tab.TState), 7)) := by
  simp only [Tab.QAgent.update_q_table, cexAgentC1, argmaxKey, List.map]
  norm_num

/-- C1 (amended): for every call to `update_q_table` with state `s`, action
`a`, reward `r`, next state `s2` and passed player list `L`, the table entry
for `(s, a)` becomes `table[(s,a)] + α × (target − table[(s,a)])` where
`target = r + γ × max over p in L of table[(s2, p)]` when `L` is non-empty,
and `target = r + γ × table[(s2, 0)]` when `L` is empty (Python's
`max(..., default=0)` makes the default `0` act as a player index; the term is
zero only when that key is unseen). -/
theorem C1_update_q_table_formula (ag : Tab.QAgent) (s : Tab.TState) (a : Nat)
    (r : ℚ) (s2 : Tab.TState) (avail : List Player) :
    (ag.update_q_table s a r s2 avail).q_table (s, a) =
      ag.q_table (s, a) + ag.learning_rate *
        ((r + ag.discount_factor *
          (if avail.map (fun p => p.idx) = [] then ag.q_table (s2, 0)
           else maxOver (fun p => ag.q_table (s2, p)) (avail.map (fun p => p.idx)))) -
          ag.q_table (s, a)) := by
  have hM : ag.q_table (s2, argmaxKey (fun p => ag.q_table (s2, p)) (avail.map (fun p => p.idx))) =
      (if avail.map (fun p => p.idx) = [] then ag.q_table (s2, 0)
       else maxOver (fun p => ag.q_table (s2, p)) (avail.map (fun p => p.idx))) := by
    cases h : avail.map (fun p => p.idx) with
    | nil => simp [argmaxKey]
    | cons x xs =>
      rw [if_neg (List.cons_ne_nil x xs)]
      exact argmaxKey_eq_maxOver (fun p => ag.q_table (s2, p)) x xs
  simp only [Tab.QAgent.update_q_table, if_true]
  rw [hM]

/-! ## C6 — bounded FIFO buffer -/

/-- Adding never changes the capacity. -/
theorem ReplayBuffer.add_capacity {α : Type} (rb : ReplayBuffer α) (e : α) :
    (rb.add e).capacity = rb.capacity := rfl

/-- One `add` keeps the buffer length at or below a positive capacity. -/
theorem ReplayBuffer.add_length_le {α : Type} (rb : ReplayBuffer α) (e : α)
    (hcap : 1 ≤ rb.capacity) (h : rb.buffer.length ≤ rb.capacity) :
    (rb.add e).buffer.length ≤ rb.capacity := by
  simp only [ReplayBuffer.add, List.length_append, List.length_singleton]
  split
  · next hge =>
    have hlen : rb.buffer.length = rb.capacity := le_antisymm h hge
    have : rb.buffer.tail.length = rb.buffer.length - 1 := List.length_tail _
    omega
  · next hlt => omega

theorem foldl_add_length_le {α : Type} :
    ∀ (es : List α) (rb : ReplayBuffer α), 1 ≤ rb.capacity →
      rb.buffer.length ≤ rb.capacity →
      (es.foldl ReplayBuffer.add rb).buffer.length ≤ rb.capacity
  | [], _, _, h => h
  | e :: es, rb, hcap, h => by
    have h1 := ReplayBuffer.add_length_le rb e hcap h
    simpa [List.foldl, ReplayBuffer.add_capacity] using
      foldl_add_length_le es (rb.add e) hcap h1

/-- C6: (i) starting from the empty buffer of any positive capacity, any
sequence of `add` calls keeps the length at or below the capacity; (ii) an
`add` performed when the buffer is at capacity removes the oldest entry (the
head) and appends the new one; (iii) adding markers 1..5 to a capacity-3
buffer leaves exactly 3, 4, 5 in insertion order. -/
theorem C6_buffer_capacity_fifo :
    (∀ (α : Type) (es : List α) (cap : Nat), 1 ≤ cap →
      (es.foldl ReplayBuffer.add (⟨[], cap⟩ : ReplayBuffer α)).buffer.length ≤ cap) ∧
    (∀ (α : Type) (rb : ReplayBuffer α) (e x : α) (l : List α),
      rb.buffer = x :: l → rb.buffer.length = rb.capacity →
      (rb.add e).buffer = l ++ [e]) ∧
    (([1, 2, 3, 4, 5] : List Nat).foldl ReplayBuffer.add
      (⟨[], 3⟩ : ReplayBuffer Nat)).buffer = [3, 4, 5] := by
  refine ⟨?_, ?_, ?_⟩
  · intro α es cap hcap
    simpa using foldl_add_length_le es ⟨[], cap⟩ hcap (by simp)
  · intro α rb e x l hbuf hlen
    simp only [ReplayBuffer.add, hbuf, List.tail_cons]
    have hge : (x :: l).length ≥ rb.capacity := by rw [← hbuf, hlen]
    rw [if_pos hge]
  · decide

/-- Witness for C6 at concrete inputs. -/
theorem C6_witness :
    ((([7, 8] : List Nat).foldl ReplayBuffer.add
        (⟨[], 3⟩ : ReplayBuffer Nat)).buffer.length ≤ 3) ∧
    ((⟨[1, 2, 3], 3⟩ : ReplayBuffer Nat).add 9).buffer = [2, 3] ++ [9] :=
  ⟨C6_buffer_capacity_fifo.1 Nat [7, 8] 3 (by decide),
   C6_buffer_capacity_fifo.2.1 Nat ⟨[1, 2, 3], 3⟩ 9 1 [2, 3] rfl rfl⟩

/-! ## C7 — sampling from the buffer -/

/-- C7 counterexample: `sample 0` on a buffer of length 1 (so the buffer is
*not* smaller than the requested batch) does not return a batch — the
`zip(*batch)` unpacking of the empty batch raises — contradicting the claim
that whenever the buffer holds at least `n` experiences the call returns
exactly `n` of them. -/
theorem C7_counterexample :
    (⟨[0], 5⟩ : ReplayBuffer Nat).sample 0 [] = .error .unpackEmpty ∧
      ¬ ((⟨[0], 5⟩ : ReplayBuffer Nat).buffer.length < 0) := by
  constructor
  · rfl
  · decide

/-- An element fetched at a valid index is a member of the list. -/
theorem getD_mem_of_lt {α : Type} (l : List α) (i : Nat) (dflt : α)
    (h : i < l.length) : l.getD i dflt ∈ l := by
  rw [List.getD_eq_getElem?_getD, List.getElem?_eq_getElem h]
  exact List.getElem_mem h

/-- C7 (amended): `sample n` fails with `InsufficientData` when the buffer
holds fewer than `n` experiences; for `1 ≤ n`, given the numpy draw contract
(`n` distinct in-range indices), it returns the batch of the buffer entries at
those `n` distinct indices — exactly `n` entries, all from the buffer.  (For
`n = 0` the claim fails, see the counterexample: the unpacking step raises.) -/
theorem C7_sample_spec :
    (∀ (α : Type) (inst : Inhabited α) (rb : ReplayBuffer α) (n : Nat)
        (idxs : List Nat), rb.buffer.length < n →
        rb.sample n idxs = .error .insufficientData) ∧
    (∀ (α : Type) (inst : Inhabited α) (rb : ReplayBuffer α) (n : Nat)
        (idxs : List Nat), 1 ≤ n → n ≤ rb.buffer.length →
        idxs.length = n → idxs.Nodup → (∀ i ∈ idxs, i < rb.buffer.length) →
        rb.sample n idxs = .ok (idxs.map (fun i => rb.buffer.getD i default)) ∧
          (idxs.map (fun i => rb.buffer.getD i default)).length = n ∧
          ∀ x ∈ idxs.map (fun i => rb.buffer.getD i default), x ∈ rb.buffer) := by
  constructor
  · intro α inst rb n idxs h
    simp only [ReplayBuffer.sample, if_pos h]
  · intro α inst rb n idxs hn hle hlen hnodup hbound
    refine ⟨?_, ?_, ?_⟩
    · simp only [ReplayBuffer.sample, if_neg (not_lt.mpr hle)]
      cases hidx : idxs.map (fun i => rb.buffer.getD i default) with
      | nil =>
        exfalso
        have hnil : idxs = [] := List.map_eq_nil_iff.mp hidx
        rw [hnil] at hlen
        simp at hlen
        omega
      | cons b bs => rfl
    · simp only [List.length_map]
      exact hlen
    · intro x hx
      rcases List.mem_map.mp hx with ⟨i, hi, rfl⟩
      exact getD_mem_of_lt _ _ _ (hbound i hi)

/-- Witness for C7 at concrete inputs: a too-large request fails with
`InsufficientData`; a legal request returns the entries at the drawn
indices. -/
theorem C7_witness :
    ((⟨[], 3⟩ : ReplayBuffer Nat).sample 1 [] = .error .insufficientData) ∧
    ((⟨[10, 20], 5⟩ : ReplayBuffer Nat).sample 2 [1, 0] =
      .ok ([1, 0].map (fun i =>
        (⟨[10, 20], 5⟩ : ReplayBuffer Nat).buffer.getD i default))) :=
  ⟨C7_sample_spec.1 Nat inferInstance ⟨[], 3⟩ 1 [] (by decide),
   (C7_sample_spec.2 Nat inferInstance ⟨[10, 20], 5⟩ 2 [1, 0] (by decide)
     (by decide) (by decide) (by decide) (by decide)).1⟩

/-! ## C3 — the reward formula -/

/-- The clamp `if r < -1 then -1 else r` of the source equals `max (-1) r`. -/
theorem clamp_eq_max (r : ℚ) : (if r < -1 then (-1 : ℚ) else r) = max (-1) r := by
  split
  · next h => exact (max_eq_left h.le).symm
  · next h => exact (max_eq_right (not_lt.mp h)).symm

/-- Conditional increment as addition of a conditional unit. -/
theorem ite_add_shift (c : Prop) [Decidable c] (x : ℚ) :
    (if c then x + 1 else x) = x + (if c then 1 else 0) := by
  split <;> simp

/-- C3: `get_reward`, as translated from the source, computes exactly the
formula the spec states: the normalized base reward when the
already-incremented counter for the item's category is within the limit,
otherwise `max (−1) (−(overdraft × base))` with the overdraft incremented by
one when some category counter is still zero. -/
theorem C3_get_reward_matches_spec (d : Deep.FantasyDraft) (p : Player)
    (a : Deep.QAgent) :
    d.get_reward p a = rewardSpecC3 (maxPointsByPosition d.player_data)
      d.position_limits a.position_counts p.projected_points p.position := by
  simp only [Deep.FantasyDraft.get_reward, rewardSpecC3]
  by_cases h : a.position_counts p.position > d.position_limits p.position
  · rw [if_pos h, if_neg (not_le.mpr h), ite_add_shift, clamp_eq_max]
  · rw [if_neg h, if_pos (not_lt.mp h)]

/-! ## C4 — reward bounds -/

/-- Unfolding of `runRounds` at zero remaining rounds. -/
theorem Tab_runRounds_zero (rng : Nat → ℚ × Nat) (z : Bool) (d : Tab.FantasyDraft) :
    Tab.FantasyDraft.runRounds rng z 0 d = .ok d := rfl

/-- Unfolding of `runRounds` at one remaining round. -/
theorem Tab_runRounds_one (rng : Nat → ℚ × Nat) (z : Bool) (d : Tab.FantasyDraft) :
    Tab.FantasyDraft.runRounds rng z 1 d =
      match Tab.foldTurns (Tab.FantasyDraft.runTurn rng z) d d.draft_order with
      | .error e => .error e
      | .ok d2 => .ok { d2 with current_round := d2.current_round + 1,
                                draft_order := d2.draft_order.reverse } := by
  show Tab.FantasyDraft.runRounds rng z (0 + 1) d = _
  rw [Tab.FantasyDraft.runRounds]
  rfl

/-- Unfolding of `runRounds` for a successor round count. -/
theorem Tab_runRounds_succ (rng : Nat → ℚ × Nat) (z : Bool) (n : Nat)
    (d : Tab.FantasyDraft) :
    Tab.FantasyDraft.runRounds rng z (n + 1) d =
      match Tab.foldTurns (Tab.FantasyDraft.runTurn rng z) d d.draft_order with
      | .error e => .error e
      | .ok d2 => Tab.FantasyDraft.runRounds rng z n
          { d2 with current_round := d2.current_round + 1,
                    draft_order := d2.draft_order.reverse } := rfl

/-- Deep `runRounds` at zero remaining rounds. -/
theorem Deep_runRounds_zero (rng : Nat → Nat) (ex : Bool) (d : Deep.FantasyDraft) :
    Deep.FantasyDraft.runRounds rng ex 0 d = .ok d := rfl

/-- Deep `runRounds` unfolding for a successor round count. -/
theorem Deep_runRounds_succ (rng : Nat → Nat) (ex : Bool) (n : Nat)
    (d : Deep.FantasyDraft) :
    Deep.FantasyDraft.runRounds rng ex (n + 1) d =
      match Tab.foldTurns (Deep.FantasyDraft.runTurn rng ex) d d.draft_order with
      | .error e => .error e
      | .ok d2 => Deep.FantasyDraft.runRounds rng ex n
          { d2 with current_round := d2.current_round + 1,
                    draft_order := d2.draft_order.reverse } := rfl

/-! ## C5 — the invalid-action penalty is a no-op transition -/

/-- The concatenation of other agents' counters depends only on each agent's
team identity and counters. -/
theorem filter_foldr_counts :
    ∀ (l1 l2 : List Deep.QAgent) (tid : Nat),
      l1.map (fun a => (a.team_id, a.position_counts)) =
        l2.map (fun a => (a.team_id, a.position_counts)) →
      (l1.filter (fun a => a.team_id ≠ tid)).foldr
          (fun a acc => Deep.countsValues a.position_counts ++ acc) [] =
        (l2.filter (fun a => a.team_id ≠ tid)).foldr
          (fun a acc => Deep.countsValues a.position_counts ++ acc) []
  | [], [], _, _ => rfl
  | [], _ :: _, _, h => by simp at h
  | _ :: _, [], _, h => by simp at h
  | a :: as, b :: bs, tid, h => by
    simp only [List.map_cons, List.cons.injEq, Prod.mk.injEq] at h
    obtain ⟨⟨hteam, hcounts⟩, htail⟩ := h
    simp only [List.filter_cons, hteam]
    split
    · simp only [List.foldr_cons, hcounts]
      rw [filter_foldr_counts as bs tid htail]
    · exact filter_foldr_counts as bs tid htail

/-- Lemma: `get_state` depends only on the acting agent's team identity and counters
and on every listed agent's team identity and counters. -/
theorem Deep_get_state_congr (a1 a2 : Deep.QAgent) (l1 l2 : List Deep.QAgent)
    (ht : a1.team_id = a2.team_id) (hc : a1.position_counts = a2.position_counts)
    (hl : l1.map (fun a => (a.team_id, a.position_counts)) =
      l2.map (fun a => (a.team_id, a.position_counts))) :
    a1.get_state l1 = a2.get_state l2 := by
  unfold Deep.QAgent.get_state
  rw [hc, ht]
  congr 1
  exact filter_foldr_counts l1 l2 a2.team_id hl

/-- Replacing a list element by one with the same projection leaves the
projected list unchanged. -/
theorem map_set_eq_of_proj {α β : Type} (f : α → β) :
    ∀ (l : List α) (i : Nat) (a a' : α),
      l[i]? = some a → f a' = f a → (l.set i a').map f = l.map f
  | [], i, _, _, h, _ => by simp at h
  | b :: bs, 0, a, a', h, hf => by
    simp only [List.getElem?_cons_zero, Option.some.injEq] at h
    subst h
    simp [hf]
  | b :: bs, i + 1, a, a', h, hf => by
    simp only [List.getElem?_cons_succ] at h
    simp only [List.set_cons_succ, List.map_cons]
    rw [map_set_eq_of_proj f bs i a a' h hf]

/-- C5: when the chosen category has no remaining item, the turn succeeds with
reward `−1` added to the acting agent's accumulated reward, no change to its
counters, drafted list or point total, an unchanged pool, and an experience
whose next state *is* the pre-turn state. -/
theorem C5_invalid_action_noop (rng : Nat → Nat) (exploit : Bool)
    (d : Deep.FantasyDraft) (team : Nat) (agent : Deep.QAgent) (position : Pos)
    (hag : d.agents[team]? = some agent)
    (hpos : posList[agent.choose_action (agent.get_state d.agents) exploit
      (rng d.pickCount)]? = some position)
    (hempty : d.available_players.filter (fun p => p.position = position) = []) :
    Deep.FantasyDraft.runTurn rng exploit d team = .ok { d with
      agents := d.agents.set team
        { agent with total_reward := agent.total_reward + (-1) },
      replay_buffer := d.replay_buffer.add
        (agent.get_state d.agents,
          agent.choose_action (agent.get_state d.agents) exploit (rng d.pickCount),
          (-1 : ℚ), agent.get_state d.agents, false),
      pickCount := d.pickCount + 1 } := by
  have hproj : (d.agents.set team
      { agent with total_reward := agent.total_reward + (-1) }).map
        (fun a => (a.team_id, a.position_counts)) =
      d.agents.map (fun a => (a.team_id, a.position_counts)) :=
    map_set_eq_of_proj _ d.agents team agent _ hag rfl
  have hns : Deep.QAgent.get_state
      { agent with total_reward := agent.total_reward + (-1) }
      (d.agents.set team { agent with total_reward := agent.total_reward + (-1) }) =
      agent.get_state d.agents :=
    Deep_get_state_congr _ _ _ _ rfl rfl hproj
  simp only [Deep.FantasyDraft.runTurn, hag, hpos, hempty]
  rw [hns]

/-- Witness for C5 at a concrete empty-pool turn. -/
theorem C5_witness :
    (cdraftDeepEmpty.agents[0]? = some cagentDeep) ∧
    (posList[cagentDeep.choose_action (cagentDeep.get_state cdraftDeepEmpty.agents)
      true (crngD cdraftDeepEmpty.pickCount)]? = some Pos.QB) ∧
    (cdraftDeepEmpty.available_players.filter
      (fun p => p.position = Pos.QB) = []) ∧
    (Deep.FantasyDraft.runTurn crngD true cdraftDeepEmpty 0 = .ok
      { cdraftDeepEmpty with
        agents := cdraftDeepEmpty.agents.set 0
          { cagentDeep with total_reward := cagentDeep.total_reward + (-1) },
        replay_buffer := cdraftDeepEmpty.replay_buffer.add
          (cagentDeep.get_state cdraftDeepEmpty.agents,
            cagentDeep.choose_action (cagentDeep.get_state cdraftDeepEmpty.agents)
              true (crngD cdraftDeepEmpty.pickCount),
            (-1 : ℚ), cagentDeep.get_state cdraftDeepEmpty.agents, false),
        pickCount := cdraftDeepEmpty.pickCount + 1 }) := by
  have h1 : cdraftDeepEmpty.agents[0]? = some cagentDeep := rfl
  have h2 : posList[cagentDeep.choose_action
      (cagentDeep.get_state cdraftDeepEmpty.agents) true
      (crngD cdraftDeepEmpty.pickCount)]? = some Pos.QB := by
    norm_num [cdraftDeepEmpty, cdraftDeep, cagentDeep, crngD,
      Deep.QAgent.choose_action, Deep.QAgent.get_state, Deep.countsValues,
      argIdxMax, posList]
  have h3 : cdraftDeepEmpty.available_players.filter
      (fun p => p.position = Pos.QB) = [] := rfl
  exact ⟨h1, h2, h3, C5_invalid_action_noop crngD true cdraftDeepEmpty 0
    cagentDeep Pos.QB h1 h2 h3⟩

/-! ## Structure of one tabular turn -/

/-- Lemma: `choose_action` always returns the index of one of the passed players
(when at least one is passed). -/
theorem Tab_choose_action_mem (ag : Tab.QAgent) (st : Tab.TState)
    (avail : List Player) (rv : ℚ) (ri : Nat) (h : ¬ avail = []) :
    ∃ p ∈ avail, p.idx = ag.choose_action st avail rv ri := by
  unfold Tab.QAgent.choose_action
  have hidx : avail.map (fun p => p.idx) ≠ [] := by
    simpa using h
  split
  · have hlen : 0 < (avail.map (fun p => p.idx)).length :=
      List.length_pos.mpr hidx
    have hmem : (avail.map (fun p => p.idx)).getD
        (ri % (avail.map (fun p => p.idx)).length) 0 ∈
          avail.map (fun p => p.idx) :=
      getD_mem_of_lt _ _ _ (Nat.mod_lt _ hlen)
    rcases List.mem_map.mp hmem with ⟨p, hp, hpe⟩
    exact ⟨p, hp, hpe⟩
  · cases havail : avail.map (fun p => p.idx) with
    | nil => exact absurd havail hidx
    | cons x xs =>
      have hmem : argmaxKey (fun player => ag.q_table (st, player)) (x :: xs) ∈
          avail.map (fun p => p.idx) := by
        rw [havail]
        exact argmaxKey_mem _ x xs
      rcases List.mem_map.mp hmem with ⟨p, hp, hpe⟩
      exact ⟨p, hp, hpe⟩

/-- Removing the (unique, by label-nodup) row with a present label shrinks a
pool by exactly one. -/
theorem length_filter_ne_of_mem :
    ∀ (l : List Player) (label : Nat),
      (l.map (fun p => p.idx)).Nodup → (∃ p ∈ l, p.idx = label) →
      (l.filter (fun p => p.idx ≠ label)).length + 1 = l.length
  | [], _, _, h => by simp at h
  | a :: as, label, hnd, h => by
    simp only [List.map_cons, List.nodup_cons] at hnd
    obtain ⟨hna, hnd2⟩ := hnd
    by_cases ha : a.idx = label
    · have hrest : as.filter (fun p => p.idx ≠ label) = as := by
        apply List.filter_eq_self.mpr
        intro q hq
        simp only [ne_eq, decide_eq_true_eq]
        intro hcontra
        subst ha
        exact hna (hcontra ▸ List.mem_map_of_mem (fun p => p.idx) hq)
      simp [List.filter_cons, ha, hrest]
      intro q hq hcontra
      subst ha
      exact hna (hcontra ▸ List.mem_map_of_mem (fun p => p.idx) hq)
    · obtain ⟨p, hp, hpe⟩ := h
      rcases List.mem_cons.mp hp with rfl | hp2
      · exact absurd hpe ha
      · have hlen := length_filter_ne_of_mem as label hnd2 ⟨p, hp2, hpe⟩
        have hkeep : (a :: as).filter (fun q => q.idx ≠ label) =
            a :: as.filter (fun q => q.idx ≠ label) := by
          simp [List.filter_cons, ha]
        rw [hkeep]
        simp only [List.length_cons]
        omega

/-- Case analysis of one tabular turn: it fails with `badIndex` (bad team
index) or `noValidPlayers`, or succeeds; on success the acted agent is
replaced in place (its epsilons zeroed exactly when the `run_draft` flag is
set), the removed identity was present in the pool (so `NotFound` is never
hit), the pool loses exactly the rows with that label, and one name is
appended to the pick log. -/
theorem Tab_runTurn_spec (rng : Nat → ℚ × Nat) (z : Bool)
    (d : Tab.FantasyDraft) (t : Nat) :
    Tab.FantasyDraft.runTurn rng z d t = .error .badIndex ∨
    Tab.FantasyDraft.runTurn rng z d t = .error .noValidPlayers ∨
    (∃ d' agent a' action, Tab.FantasyDraft.runTurn rng z d t = .ok d' ∧
      d.agents[t]? = some agent ∧
      d'.agents = d.agents.set t a' ∧
      a'.epsilon = (if z then 0 else agent.epsilon) ∧
      a'.epsilon_min = (if z then 0 else agent.epsilon_min) ∧
      (d.available_players.any (fun p => p.idx = action) = true) ∧
      d'.available_players = d.available_players.filter (fun p => p.idx ≠ action) ∧
      d'.pickCount = d.pickCount + 1 ∧
      (∃ nm, d'.pickLog = d.pickLog ++ [nm]) ∧
      d'.player_data = d.player_data ∧ d'.num_teams = d.num_teams ∧
      d'.num_rounds = d.num_rounds ∧ d'.current_round = d.current_round ∧
      d'.draft_order = d.draft_order) := by
  unfold Tab.FantasyDraft.runTurn
  cases hag : d.agents[t]? with
  | none => exact Or.inl rfl
  | some agent0 =>
    dsimp only
    by_cases hval : d.available_players.filter (fun p =>
        (if z then { agent0 with epsilon := 0, epsilon_min := 0 }
         else agent0).position_counts p.position <
          Tab.position_limits p.position) = []
    · rw [if_pos hval]
      exact Or.inr (Or.inl rfl)
    · rw [if_neg hval]
      obtain ⟨p0, hp0, hp0e⟩ := Tab_choose_action_mem
        (if z then { agent0 with epsilon := 0, epsilon_min := 0 } else agent0)
        ((if z then { agent0 with epsilon := 0, epsilon_min := 0 }
          else agent0).get_state d.available_players d.current_round)
        (d.available_players.filter (fun p =>
          (if z then { agent0 with epsilon := 0, epsilon_min := 0 }
           else agent0).position_counts p.position <
            Tab.position_limits p.position))
        (rng d.pickCount).1 (rng d.pickCount).2 hval
      have hp0avail : p0 ∈ d.available_players := List.mem_of_mem_filter hp0
      have hany : d.available_players.any (fun p => p.idx =
          (if z then { agent0 with epsilon := 0, epsilon_min := 0 }
           else agent0).choose_action
            ((if z then { agent0 with epsilon := 0, epsilon_min := 0 }
              else agent0).get_state d.available_players d.current_round)
            (d.available_players.filter (fun p =>
              (if z then { agent0 with epsilon := 0, epsilon_min := 0 }
               else agent0).position_counts p.position <
                Tab.position_limits p.position))
            (rng d.pickCount).1 (rng d.pickCount).2) = true :=
        List.any_eq_true.mpr ⟨p0, hp0avail, by simp [hp0e]⟩
      have hfindsome : (d.available_players.find? (fun p => p.idx =
          (if z then { agent0 with epsilon := 0, epsilon_min := 0 }
           else agent0).choose_action
            ((if z then { agent0 with epsilon := 0, epsilon_min := 0 }
              else agent0).get_state d.available_players d.current_round)
            (d.available_players.filter (fun p =>
              (if z then { agent0 with epsilon := 0, epsilon_min := 0 }
               else agent0).position_counts p.position <
                Tab.position_limits p.position))
            (rng d.pickCount).1 (rng d.pickCount).2)).isSome := by
        rw [List.find?_isSome]
        exact ⟨p0, hp0avail, by simp [hp0e]⟩
      obtain ⟨dp, hdp⟩ := Option.isSome_iff_exists.mp hfindsome
      rw [hdp]
      dsimp only
      unfold dropIdx
      rw [if_pos hany]
      dsimp only
      refine Or.inr (Or.inr ⟨_, agent0, _, _, rfl, rfl, rfl, ?_, ?_, hany, rfl,
        rfl, ⟨dp.player_name, rfl⟩, rfl, rfl, rfl, rfl, rfl⟩)
      · cases z <;> rfl
      · cases z <;> rfl

/-! ## Structure of one deep turn -/

/-- Case analysis of one deep turn: it fails with `badIndex`, or succeeds; on
success the acted agent is replaced in place with its persistent part intact,
and either the penalty branch was taken (pool and pick log unchanged) or a
player present in the pool was drafted (the pool loses exactly the rows with
that label and the name is logged).  In particular `NotFound` is never hit. -/
theorem Deep_runTurn_spec (rng : Nat → Nat) (ex : Bool)
    (d : Deep.FantasyDraft) (t : Nat) :
    Deep.FantasyDraft.runTurn rng ex d t = .error .badIndex ∨
    (∃ d' agent a', Deep.FantasyDraft.runTurn rng ex d t = .ok d' ∧
      d.agents[t]? = some agent ∧ agentPers a' = agentPers agent ∧
      d'.agents = d.agents.set t a' ∧
      d'.player_data = d.player_data ∧ d'.num_teams = d.num_teams ∧
      d'.num_rounds = d.num_rounds ∧ d'.position_limits = d.position_limits ∧
      d'.current_round = d.current_round ∧ d'.draft_order = d.draft_order ∧
      d'.pickCount = d.pickCount + 1 ∧
      ((d'.pickLog = d.pickLog ∧ d'.available_players = d.available_players) ∨
        (∃ dp : Player, d.available_players.any (fun p => p.idx = dp.idx) = true ∧
          d'.available_players =
            d.available_players.filter (fun p => p.idx ≠ dp.idx) ∧
          d'.pickLog = d.pickLog ++ [dp.player_name]))) := by
  unfold Deep.FantasyDraft.runTurn
  cases hag : d.agents[t]? with
  | none => exact Or.inl rfl
  | some agent =>
    dsimp only
    cases hpos : posList[agent.choose_action (agent.get_state d.agents) ex
        (rng d.pickCount)]? with
    | none => exact Or.inl rfl
    | some position =>
      dsimp only
      cases hfil : d.available_players.filter
          (fun p => p.position = position) with
      | nil =>
        dsimp only
        refine Or.inr ⟨_, agent, ?_, rfl, rfl, ?_, ?_, rfl, rfl, rfl, rfl,
          rfl, rfl, rfl, Or.inl ⟨rfl, rfl⟩⟩
        · exact { agent with total_reward := agent.total_reward + (-1) }
        · rfl
        · rfl
      | cons dp rest =>
        dsimp only
        have hdpin : dp ∈ d.available_players := by
          apply List.mem_of_mem_filter (p := fun p => p.position = position)
          rw [hfil]
          exact List.mem_cons_self dp rest
        have hany : d.available_players.any
            (fun p => p.idx = dp.idx) = true :=
          List.any_eq_true.mpr ⟨dp, hdpin, by simp⟩
        unfold dropIdx
        rw [if_pos hany]
        dsimp only
        refine Or.inr ⟨_, agent, ?_, rfl, rfl, ?_, ?_, rfl, rfl, rfl, rfl,
          rfl, rfl, rfl, Or.inr ⟨dp, hany, rfl, rfl⟩⟩
        · exact { agent with
            total_points := agent.total_points + dp.projected_points,
            drafted_players := agent.drafted_players ++ [dp.player_name],
            position_counts := bumpCount agent.position_counts dp.position,
            total_reward := agent.total_reward + d.get_reward dp
              { agent with
                total_points := agent.total_points + dp.projected_points,
                drafted_players := agent.drafted_players ++ [dp.player_name],
                position_counts := bumpCount agent.position_counts dp.position } }
        · rfl
        · rfl

/-! ## Concrete evaluations -/

/-- One exploration-free turn on the concrete tabular draft: the argmax pick
is player `A` and the Q-entry at `(([], 0)), 0)` drops from `10` to `8`. -/
theorem tab_turn1_eval :
    Tab.FantasyDraft.runTurn trng true cexDraftTab 0 = .ok cexT1 := by
  norm_num [Tab.FantasyDraft.runTurn, cexDraftTab, cexAgentC9, cexD1agent,
    cexT1, playerA, playerB, trng, Tab.QAgent.get_state,
    Tab.QAgent.choose_action, Tab.QAgent.update_q_table, Tab.position_limits,
    argmaxKey, sortStr, insertSorted, dropIdx, List.filter_cons, List.find?]
  simp

/-- The first exploration-free `run_draft` on the concrete tabular draft picks
`A`. -/
theorem cexRun1_eval : cexDraftTab.run_draft trng = .ok cexD1 := by
  norm_num [Tab.FantasyDraft.run_draft, Tab_runRounds_one,
    Tab.FantasyDraft.reset_draft, Tab.QAgent.reset_agent, Tab.foldTurns,
    Tab.FantasyDraft.runTurn, cexDraftTab, cexAgentC9, cexD1agent, cexD1,
    playerA, playerB, trng, Tab.QAgent.get_state, Tab.QAgent.choose_action,
    Tab.QAgent.update_q_table, Tab.position_limits, argmaxKey, sortStr,
    insertSorted, dropIdx, List.filter_cons, List.find?, List.range_succ]
  simp

/-- The second, consecutive exploration-free `run_draft` picks `B`: the
Q-update performed during the first draft changed the argmax. -/
theorem cexRun2_eval : cexD1.run_draft trng = .ok cexD2 := by
  norm_num [Tab.FantasyDraft.run_draft, Tab_runRounds_one,
    Tab.FantasyDraft.reset_draft, Tab.QAgent.reset_agent, Tab.foldTurns,
    Tab.FantasyDraft.runTurn, cexD1, cexD1agent, cexD2agent, cexD2,
    playerA, playerB, trng, Tab.QAgent.get_state, Tab.QAgent.choose_action,
    Tab.QAgent.update_q_table, Tab.position_limits, argmaxKey, sortStr,
    insertSorted, dropIdx, List.filter_cons, List.find?, List.range_succ]
  simp

/-- One exploit-mode turn on the concrete deep draft with an exhausted pool:
the penalty branch is taken. -/
theorem deep_empty_turn_eval :
    Deep.FantasyDraft.runTurn crngD true cdraftDeepEmpty 0 = .ok cexDeepPen := by
  norm_num [Deep.FantasyDraft.runTurn, cdraftDeepEmpty, cdraftDeep, cagentDeep,
    crngD, Deep.QAgent.choose_action, Deep.QAgent.get_state, Deep.countsValues,
    argIdxMax, posList, ReplayBuffer.add, cexDeepPen, pQB, deepLimits,
    List.filter_cons]

/-! ## C8 — removal is always of a present identity -/

/-- C8: in both engines a turn never fails with `NotFound` (removal is only
ever invoked with an identity present in the pool); under unique pool labels
a successful tabular pick shrinks the pool by exactly one, and a successful
deep turn either logs one pick and shrinks the pool by exactly one or is a
penalized no-op that leaves the pool unchanged. -/
theorem C8_removal_safety :
    (∀ (rng : Nat → ℚ × Nat) (z : Bool) (d : Tab.FantasyDraft) (t : Nat),
      Tab.FantasyDraft.runTurn rng z d t ≠ .error .notFound) ∧
    (∀ (rng : Nat → ℚ × Nat) (z : Bool) (d : Tab.FantasyDraft) (t : Nat)
        (d' : Tab.FantasyDraft),
      (d.available_players.map (fun p => p.idx)).Nodup →
      Tab.FantasyDraft.runTurn rng z d t = .ok d' →
      d'.available_players.length + 1 = d.available_players.length) ∧
    (∀ (rng : Nat → Nat) (ex : Bool) (d : Deep.FantasyDraft) (t : Nat),
      Deep.FantasyDraft.runTurn rng ex d t ≠ .error .notFound) ∧
    (∀ (rng : Nat → Nat) (ex : Bool) (d : Deep.FantasyDraft) (t : Nat)
        (d' : Deep.FantasyDraft),
      (d.available_players.map (fun p => p.idx)).Nodup →
      Deep.FantasyDraft.runTurn rng ex d t = .ok d' →
      ((∃ nm, d'.pickLog = d.pickLog ++ [nm]) ∧
        d'.available_players.length + 1 = d.available_players.length) ∨
      (d'.pickLog = d.pickLog ∧ d'.available_players = d.available_players)) := by
  refine ⟨?_, ?_, ?_, ?_⟩
  · intro rng z d t hcontra
    rcases Tab_runTurn_spec rng z d t with h | h | ⟨d2, ag, a2, act, hok, _⟩
    · rw [hcontra] at h
      simp at h
    · rw [hcontra] at h
      simp at h
    · rw [hcontra] at hok
      simp at hok
  · intro rng z d t d' hnd h
    rcases Tab_runTurn_spec rng z d t with h1 | h1 |
      ⟨d2, ag, a2, act, hok, _, _, _, _, hany, havail, _⟩
    · rw [h] at h1
      simp at h1
    · rw [h] at h1
      simp at h1
    · have hd2 : d2 = d' := Except.ok.inj (hok.symm.trans h)
      subst hd2
      rw [havail]
      apply length_filter_ne_of_mem _ _ hnd
      rcases List.any_eq_true.mp hany with ⟨p, hp, hpe⟩
      exact ⟨p, hp, by simpa using hpe⟩
  · intro rng ex d t hcontra
    rcases Deep_runTurn_spec rng ex d t with h | ⟨d2, ag, a2, hok, _⟩
    · rw [hcontra] at h
      simp at h
    · rw [hcontra] at hok
      simp at hok
  · intro rng ex d t d' hnd h
    rcases Deep_runTurn_spec rng ex d t with h1 |
      ⟨d2, ag, a2, hok, _, _, _, _, _, _, _, _, _, _, hbranch⟩
    · rw [h] at h1
      simp at h1
    · have hd2 : d2 = d' := Except.ok.inj (hok.symm.trans h)
      subst hd2
      rcases hbranch with ⟨hlog, havail⟩ | ⟨dp, hany, havail, hlog⟩
      · exact Or.inr ⟨hlog, havail⟩
      · refine Or.inl ⟨⟨dp.player_name, hlog⟩, ?_⟩
        rw [havail]
        apply length_filter_ne_of_mem _ _ hnd
        rcases List.any_eq_true.mp hany with ⟨p, hp, hpe⟩
        exact ⟨p, hp, by simpa using hpe⟩

/-- Witness for C8 at concrete turns of both engines. -/
theorem C8_witness :
    (Tab.FantasyDraft.runTurn trng true cexDraftTab 0 ≠ .error .notFound) ∧
    (cexT1.available_players.length + 1 =
      cexDraftTab.available_players.length) ∧
    (Deep.FantasyDraft.runTurn crngD true cdraftDeepEmpty 0 ≠
      .error .notFound) ∧
    (((∃ nm, cexDeepPen.pickLog = cdraftDeepEmpty.pickLog ++ [nm]) ∧
        cexDeepPen.available_players.length + 1 =
          cdraftDeepEmpty.available_players.length) ∨
      (cexDeepPen.pickLog = cdraftDeepEmpty.pickLog ∧
        cexDeepPen.available_players = cdraftDeepEmpty.available_players)) :=
  ⟨C8_removal_safety.1 trng true cexDraftTab 0,
   C8_removal_safety.2.1 trng true cexDraftTab 0 cexT1 (by decide) tab_turn1_eval,
   C8_removal_safety.2.2.1 crngD true cdraftDeepEmpty 0,
   C8_removal_safety.2.2.2 crngD true cdraftDeepEmpty 0 cexDeepPen (by decide)
     deep_empty_turn_eval⟩

/-! ## C2 — the state encoding -/

/-- C2 counterexample: in the tabular variant the state is the pair
`(sorted drafted names, round)`; across one concrete exploration-free draft
its first component grows from length 0 to length 1, so the tabular state is
not a fixed-length vector of constraint counters. -/
theorem C2_counterexample :
    ∃ d', cexDraftTab.run_draft trng = .ok d' ∧
      ∃ a0 a1, cexDraftTab.agents[0]? = some a0 ∧ d'.agents[0]? = some a1 ∧
        (a0.get_state cexDraftTab.available_players
            cexDraftTab.current_round).1.length ≠
          (a1.get_state d'.available_players d'.current_round).1.length := by
  refine ⟨cexD1, cexRun1_eval, cexAgentC9, cexD1agent, rfl, rfl, ?_⟩
  decide

/-- The concatenated counters of a list of agents have length `4 × (number of
agents)`. -/
theorem foldr_counts_length :
    ∀ (l : List Deep.QAgent),
      (l.foldr (fun a acc => Deep.countsValues a.position_counts ++ acc)
        []).length = 4 * l.length
  | [] => rfl
  | a :: as => by
    simp only [List.foldr_cons, List.length_append, List.length_cons]
    rw [foldr_counts_length as]
    simp only [Deep.countsValues, List.length_cons, List.length_nil]
    omega

/-- A list splits by a boolean predicate and its negation. -/
theorem length_filter_not {α : Type} (p : α → Bool) :
    ∀ l : List α,
      (l.filter p).length + (l.filter (fun a => ! p a)).length = l.length
  | [] => rfl
  | a :: as => by
    have h := length_filter_not p as
    cases hpa : p a <;> simp [List.filter_cons, hpa] <;> omega

/-- Splitting a list of agents by a team identity preserves total length. -/
theorem length_filter_team_split (l : List Deep.QAgent) (tid : Nat) :
    (l.filter (fun a => a.team_id = tid)).length +
      (l.filter (fun a => a.team_id ≠ tid)).length = l.length := by
  have h := length_filter_not (fun a : Deep.QAgent => decide (a.team_id = tid)) l
  have hco : l.filter (fun a => a.team_id ≠ tid) =
      l.filter (fun a => ! decide (a.team_id = tid)) := by
    apply List.filter_congr
    intro a _
    simp [ne_eq, decide_not]
  rw [hco]
  exact h

/-- C2 (amended): in the approximated variant the state vector consists of the
acting agent's four counters followed by every other agent's four counters in
list order, so its length is `4 × (number of agents)` whenever exactly one
listed agent carries the acting agent's team identity; and every successful
turn preserves the number of agents and their team identities, so the length
is constant across a run.  (In the tabular variant the state is instead the
growing pair `(sorted drafted names, round)` — see the counterexample.) -/
theorem C2_state_length :
    (∀ (ag : Deep.QAgent) (agents : List Deep.QAgent),
      (agents.filter (fun a => a.team_id = ag.team_id)).length = 1 →
      (ag.get_state agents).length = 4 * agents.length) ∧
    (∀ (rng : Nat → Nat) (ex : Bool) (d : Deep.FantasyDraft) (t : Nat)
        (d' : Deep.FantasyDraft), Deep.FantasyDraft.runTurn rng ex d t = .ok d' →
      d'.agents.length = d.agents.length ∧
      d'.agents.map (fun a => a.team_id) = d.agents.map (fun a => a.team_id)) := by
  constructor
  · intro ag agents h
    have hsplit := length_filter_team_split agents ag.team_id
    unfold Deep.QAgent.get_state
    rw [List.length_append, foldr_counts_length]
    simp only [Deep.countsValues, List.length_cons, List.length_nil]
    omega
  · intro rng ex d t d' h
    rcases Deep_runTurn_spec rng ex d t with h1 |
      ⟨d2, ag, a2, hok, hag, hpers, hset, _⟩
    · rw [h] at h1
      simp at h1
    · have hd2 : d2 = d' := Except.ok.inj (hok.symm.trans h)
      subst hd2
      have hteam : a2.team_id = ag.team_id := congrArg Prod.fst hpers
      constructor
      · rw [hset, List.length_set]
      · rw [hset]
        exact map_set_eq_of_proj (fun a => a.team_id) d.agents t ag a2 hag hteam

/-- Witness for C2 at a concrete agent list and a concrete successful turn. -/
theorem C2_witness :
    ((cagentDeep.get_state [cagentDeep]).length = 4 * [cagentDeep].length) ∧
    (cexDeepPen.agents.length = cdraftDeepEmpty.agents.length ∧
      cexDeepPen.agents.map (fun a => a.team_id) =
        cdraftDeepEmpty.agents.map (fun a => a.team_id)) :=
  ⟨C2_state_length.1 cagentDeep [cagentDeep] (by rfl),
   C2_state_length.2 crngD true cdraftDeepEmpty 0 cexDeepPen deep_empty_turn_eval⟩

/-! ## C9 — determinism of consecutive exploration-free drafts -/

/-- C9 counterexample: on the concrete tabular draft, two consecutive
`run_draft` calls (fixed random stream, exploration off) produce different
pick sequences — the first drafts `A`, the second drafts `B` — because
`run_draft` itself performs Q-updates during the draft. -/
theorem C9_counterexample :
    ∃ d1 d2, cexDraftTab.run_draft trng = .ok d1 ∧ d1.run_draft trng = .ok d2 ∧
      d1.pickLog ≠ d2.pickLog :=
  ⟨cexD1, cexD2, cexRun1_eval, cexRun2_eval, by decide⟩

/-- In exploit mode the chosen action is the argmax of the live network and
the exploration draw is ignored. -/
theorem Deep_choose_action_exploit (ag : Deep.QAgent) (st : Deep.State)
    (s : Nat) : ag.choose_action st true s = argIdxMax (ag.q_network st) := rfl

/-- Lemma: `get_reward` reads the simulator only through the dataset and the limits. -/
theorem get_reward_congr (d1 d2 : Deep.FantasyDraft) (p : Player)
    (a : Deep.QAgent) (hpd : d1.player_data = d2.player_data)
    (hpl : d1.position_limits = d2.position_limits) :
    d1.get_reward p a = d2.get_reward p a := by
  unfold Deep.FantasyDraft.get_reward
  rw [hpd, hpl]

/-- Observational equality is the statement that one state is the other with
only the buffer and the RNG cursor replaced. -/
theorem dObsEq_eq (d1 d2 : Deep.FantasyDraft) (h : dObsEq d1 d2) :
    d2 = { d1 with replay_buffer := d2.replay_buffer,
                   pickCount := d2.pickCount } := by
  obtain ⟨hpd, hnt, hnr, hdo, hpl, hag, hav, hcr, hlog⟩ := h
  cases d1
  cases d2
  simp only at hpd hnt hnr hdo hpl hag hav hcr hlog ⊢
  subst hpd hnt hnr hdo hpl hag hav hcr hlog
  rfl

/-- An exploit-mode turn never reads the buffer or the RNG cursor: running it
from states differing only there gives the same errors and observationally
equal successes. -/
theorem Deep_runTurn_bufferIrrelevant (rng1 rng2 : Nat → Nat)
    (d : Deep.FantasyDraft) (rb : ReplayBuffer Deep.Exp) (pc : Nat) (t : Nat) :
    (∀ e, Deep.FantasyDraft.runTurn rng1 true d t = .error e ↔
      Deep.FantasyDraft.runTurn rng2 true
        { d with replay_buffer := rb, pickCount := pc } t = .error e) ∧
    (∀ d1' d2', Deep.FantasyDraft.runTurn rng1 true d t = .ok d1' →
      Deep.FantasyDraft.runTurn rng2 true
        { d with replay_buffer := rb, pickCount := pc } t = .ok d2' →
      dObsEq d1' d2') := by
  have hgr : ∀ (p : Player) (a : Deep.QAgent),
      Deep.FantasyDraft.get_reward
        { d with replay_buffer := rb, pickCount := pc } p a =
        d.get_reward p a := fun p a => get_reward_congr _ _ p a rfl rfl
  unfold Deep.FantasyDraft.runTurn
  simp only [Deep_choose_action_exploit, hgr]
  cases hsc : d.agents[t]? with
  | none =>
    exact ⟨fun e => Iff.rfl, fun d1' d2' h1 _ => by simp at h1⟩
  | some agent =>
    dsimp only
    cases hpos : posList[argIdxMax (agent.q_network (agent.get_state d.agents))]? with
    | none => exact ⟨fun e => Iff.rfl, fun d1' d2' h1 _ => by simp at h1⟩
    | some position =>
      dsimp only
      cases hfil : d.available_players.filter (fun p => p.position = position) with
      | nil =>
        dsimp only
        refine ⟨fun e => by constructor <;> (intro hh; simp at hh), ?_⟩
        intro d1' d2' h1 h2
        have e1 := Except.ok.inj h1
        have e2 := Except.ok.inj h2
        subst e1
        subst e2
        exact ⟨rfl, rfl, rfl, rfl, rfl, rfl, rfl, rfl, rfl⟩
      | cons dp rest =>
        dsimp only
        cases hdrop : dropIdx d.available_players dp.idx with
        | error e0 =>
          exact ⟨fun e => Iff.rfl, fun d1' d2' h1 _ => by simp at h1⟩
        | ok newAvail =>
          dsimp only
          refine ⟨fun e => by constructor <;> (intro hh; simp at hh), ?_⟩
          intro d1' d2' h1 h2
          have e1 := Except.ok.inj h1
          have e2 := Except.ok.inj h2
          subst e1
          subst e2
          exact ⟨rfl, rfl, rfl, rfl, rfl, rfl, rfl, rfl, rfl⟩

/-- Turn-level observational equivalence. -/
theorem Deep_runTurn_obsEq (rng1 rng2 : Nat → Nat) (d1 d2 : Deep.FantasyDraft)
    (t : Nat) (h : dObsEq d1 d2) :
    (∀ e, Deep.FantasyDraft.runTurn rng1 true d1 t = .error e ↔
      Deep.FantasyDraft.runTurn rng2 true d2 t = .error e) ∧
    (∀ d1' d2', Deep.FantasyDraft.runTurn rng1 true d1 t = .ok d1' →
      Deep.FantasyDraft.runTurn rng2 true d2 t = .ok d2' → dObsEq d1' d2') := by
  rw [dObsEq_eq d1 d2 h]
  exact Deep_runTurn_bufferIrrelevant rng1 rng2 d1 d2.replay_buffer d2.pickCount t

/-- Fold-level observational equivalence over a list of turns. -/
theorem Deep_foldTurns_obsEq (rng1 rng2 : Nat → Nat) :
    ∀ (order : List Nat) (d1 d2 : Deep.FantasyDraft), dObsEq d1 d2 →
      ∀ d1' d2',
        Tab.foldTurns (Deep.FantasyDraft.runTurn rng1 true) d1 order = .ok d1' →
        Tab.foldTurns (Deep.FantasyDraft.runTurn rng2 true) d2 order = .ok d2' →
        dObsEq d1' d2'
  | [], d1, d2, h, d1', d2', h1, h2 => by
    simp only [Tab.foldTurns] at h1 h2
    exact (Except.ok.inj h1) ▸ (Except.ok.inj h2) ▸ h
  | t :: ts, d1, d2, h, d1', d2', h1, h2 => by
    simp only [Tab.foldTurns] at h1 h2
    cases ht1 : Deep.FantasyDraft.runTurn rng1 true d1 t with
    | error e1 =>
      rw [ht1] at h1
      simp at h1
    | ok m1 =>
      rw [ht1] at h1
      cases ht2 : Deep.FantasyDraft.runTurn rng2 true d2 t with
      | error e2 =>
        have := ((Deep_runTurn_obsEq rng1 rng2 d1 d2 t h).1 e2).mpr ht2
        rw [ht1] at this
        simp at this
      | ok m2 =>
        rw [ht2] at h2
        exact Deep_foldTurns_obsEq rng1 rng2 ts m1 m2
          ((Deep_runTurn_obsEq rng1 rng2 d1 d2 t h).2 m1 m2 ht1 ht2) d1' d2' h1 h2

/-- The round-end bookkeeping preserves observational equality. -/
theorem Deep_roundEnd_obsEq (m1 m2 : Deep.FantasyDraft) (h : dObsEq m1 m2) :
    dObsEq { m1 with current_round := m1.current_round + 1,
                     draft_order := m1.draft_order.reverse }
            { m2 with current_round := m2.current_round + 1,
                      draft_order := m2.draft_order.reverse } := by
  obtain ⟨hpd, hnt, hnr, hdo, hpl, hag, hav, hcr, hlog⟩ := h
  exact ⟨hpd, hnt, hnr, by rw [hdo], hpl, hag, hav, by rw [hcr], hlog⟩

/-- Round-loop-level observational equivalence. -/
theorem Deep_runRounds_obsEq (rng1 rng2 : Nat → Nat) :
    ∀ (n : Nat) (d1 d2 : Deep.FantasyDraft), dObsEq d1 d2 →
      ∀ d1' d2', Deep.FantasyDraft.runRounds rng1 true n d1 = .ok d1' →
        Deep.FantasyDraft.runRounds rng2 true n d2 = .ok d2' → dObsEq d1' d2'
  | 0, d1, d2, h, d1', d2', h1, h2 => by
    simp only [Deep_runRounds_zero] at h1 h2
    exact (Except.ok.inj h1) ▸ (Except.ok.inj h2) ▸ h
  | n + 1, d1, d2, h, d1', d2', h1, h2 => by
    rw [Deep_runRounds_succ] at h1 h2
    cases hf1 : Tab.foldTurns (Deep.FantasyDraft.runTurn rng1 true) d1
        d1.draft_order with
    | error e1 =>
      rw [hf1] at h1
      simp at h1
    | ok m1 =>
      rw [hf1] at h1
      cases hf2 : Tab.foldTurns (Deep.FantasyDraft.runTurn rng2 true) d2
          d2.draft_order with
      | error e2 =>
        rw [hf2] at h2
        simp at h2
      | ok m2 =>
        rw [hf2] at h2
        have hdo : d1.draft_order = d2.draft_order := h.2.2.2.1
        rw [← hdo] at hf2
        have hm := Deep_foldTurns_obsEq rng1 rng2 d1.draft_order d1 d2 h
          m1 m2 hf1 hf2
        exact Deep_runRounds_obsEq rng1 rng2 n _ _
          (Deep_roundEnd_obsEq m1 m2 hm) d1' d2' h1 h2

/-- The persistent part survives one deep turn. -/
theorem Deep_runTurn_persist (rng : Nat → Nat) (ex : Bool)
    (d : Deep.FantasyDraft) (t : Nat) (d' : Deep.FantasyDraft)
    (h : Deep.FantasyDraft.runTurn rng ex d t = .ok d') :
    dPersist d' = dPersist d := by
  rcases Deep_runTurn_spec rng ex d t with h1 |
    ⟨d2, ag, a2, hok, hag, hpers, hset, hpd, hnt, hnr, hpl, _, _, _, _⟩
  · rw [h] at h1
    simp at h1
  · have hd2 : d2 = d' := Except.ok.inj (hok.symm.trans h)
    subst hd2
    unfold dPersist
    rw [hpd, hnt, hnr, hpl, hset,
      map_set_eq_of_proj agentPers d.agents t ag a2 hag hpers]

/-- The persistent part survives a fold of deep turns. -/
theorem Deep_foldTurns_persist (rng : Nat → Nat) (ex : Bool) :
    ∀ (order : List Nat) (d d' : Deep.FantasyDraft),
      Tab.foldTurns (Deep.FantasyDraft.runTurn rng ex) d order = .ok d' →
      dPersist d' = dPersist d
  | [], d, d', h => by
    simp only [Tab.foldTurns] at h
    exact (Except.ok.inj h) ▸ rfl
  | t :: ts, d, d', h => by
    simp only [Tab.foldTurns] at h
    cases ht : Deep.FantasyDraft.runTurn rng ex d t with
    | error e =>
      rw [ht] at h
      simp at h
    | ok m =>
      rw [ht] at h
      exact (Deep_foldTurns_persist rng ex ts m d' h).trans
        (Deep_runTurn_persist rng ex d t m ht)

/-- The persistent part survives the whole round loop. -/
theorem Deep_runRounds_persist (rng : Nat → Nat) (ex : Bool) :
    ∀ (n : Nat) (d d' : Deep.FantasyDraft),
      Deep.FantasyDraft.runRounds rng ex n d = .ok d' → dPersist d' = dPersist d
  | 0, d, d', h => by
    simp only [Deep_runRounds_zero] at h
    exact (Except.ok.inj h) ▸ rfl
  | n + 1, d, d', h => by
    rw [Deep_runRounds_succ] at h
    cases hf : Tab.foldTurns (Deep.FantasyDraft.runTurn rng ex) d
        d.draft_order with
    | error e =>
      rw [hf] at h
      simp at h
    | ok m =>
      rw [hf] at h
      have h1 := Deep_runRounds_persist rng ex n _ d' h
      have h2 := Deep_foldTurns_persist rng ex d.draft_order d m hf
      exact h1.trans h2

/-- Resetting does not change the persistent part. -/
theorem Deep_reset_persist (d : Deep.FantasyDraft) :
    dPersist d.reset_draft = dPersist d := by
  unfold dPersist Deep.FantasyDraft.reset_draft
  simp only [List.map_map]
  rfl

/-- States with the same persistent part reset to observationally equal
states. -/
theorem Deep_reset_obsEq_of_persist (da db : Deep.FantasyDraft)
    (h : dPersist da = dPersist db) :
    dObsEq da.reset_draft db.reset_draft := by
  simp only [dPersist, Prod.mk.injEq] at h
  obtain ⟨hpd, hnt, hnr, hpl, hmap⟩ := h
  have hfac : ∀ (l : List Deep.QAgent),
      l.map Deep.QAgent.reset_agent = (l.map agentPers).map mkResetAgent := by
    intro l
    rw [List.map_map]
    rfl
  have hreset : da.agents.map Deep.QAgent.reset_agent =
      db.agents.map Deep.QAgent.reset_agent := by
    rw [hfac, hfac, hmap]
  unfold dObsEq Deep.FantasyDraft.reset_draft
  dsimp only
  exact ⟨hpd, hnt, hnr, by rw [hnt], hpl, hreset, hpd, rfl, rfl⟩

/-- C9 (amended): in the approximated variant, running a second
exploration-free episode right after a first one (same random stream, each
starting from a fresh reset) reproduces the same pick sequence — `run_episode`
mutates the replay buffer but never the networks.  (For the tabular
`run_draft` the corresponding statement is false, see the counterexample:
`run_draft` updates the Q-table mid-draft.) -/
theorem C9_exploit_determinism (d : Deep.FantasyDraft) (rng : Nat → Nat)
    (d1 d2 : Deep.FantasyDraft)
    (h1 : d.run_episode rng true = .ok d1)
    (h2 : d1.run_episode rng true = .ok d2) :
    d1.pickLog = d2.pickLog := by
  unfold Deep.FantasyDraft.run_episode at h1 h2
  have hpers1 : dPersist d1 = dPersist d :=
    (Deep_runRounds_persist rng true d.num_rounds d.reset_draft d1 h1).trans
      (Deep_reset_persist d)
  have hn : d1.num_rounds = d.num_rounds := by
    have := congrArg (fun q => q.2.2.1) hpers1
    simpa [dPersist] using this
  rw [hn] at h2
  have hobs : dObsEq d.reset_draft d1.reset_draft :=
    Deep_reset_obsEq_of_persist d d1 hpers1.symm
  have hfinal := Deep_runRounds_obsEq rng rng d.num_rounds d.reset_draft
    d1.reset_draft hobs d1 d2 h1 h2
  exact hfinal.2.2.2.2.2.2.2.2

/-- Witness for C9 on a concrete deep draft (no teams, one round): both
consecutive exploit episodes succeed and log the same (empty) pick
sequence. -/
theorem C9_witness :
    ∃ d1 d2, cexDeepNoTeams.run_episode crngD true = .ok d1 ∧
      d1.run_episode crngD true = .ok d2 ∧ d1.pickLog = d2.pickLog := by
  refine ⟨_, _, rfl, rfl, ?_⟩
  exact C9_exploit_determinism cexDeepNoTeams crngD _ _ rfl rfl

/-! ## C10 — run_draft permanently disables exploration -/

/-- Epsilon bookkeeping of one successful tabular turn. -/
theorem Tab_runTurn_eps_set (rng : Nat → ℚ × Nat) (z : Bool)
    (d : Tab.FantasyDraft) (t : Nat) (d' : Tab.FantasyDraft)
    (h : Tab.FantasyDraft.runTurn rng z d t = .ok d') :
    ∃ agent a', d.agents[t]? = some agent ∧ d'.agents = d.agents.set t a' ∧
      a'.epsilon = (if z then 0 else agent.epsilon) ∧
      a'.epsilon_min = (if z then 0 else agent.epsilon_min) := by
  rcases Tab_runTurn_spec rng z d t with h1 | h1 |
    ⟨d2, ag, a2, act, hok, hag, hset, heps, hepsm, _⟩
  · rw [h] at h1
    simp at h1
  · rw [h] at h1
    simp at h1
  · have hd2 : d2 = d' := Except.ok.inj (hok.symm.trans h)
    subst hd2
    exact ⟨ag, a2, hag, hset, heps, hepsm⟩

/-- A `run_draft`-mode turn zeroes the acting agent's epsilons and leaves the
other agents in place. -/
theorem TabEpsZeroOn_turn (rng : Nat → ℚ × Nat) (d : Tab.FantasyDraft)
    (t : Nat) (d' : Tab.FantasyDraft) (S : Nat → Prop)
    (h : Tab.FantasyDraft.runTurn rng true d t = .ok d')
    (hW : TabEpsZeroOn S d) : TabEpsZeroOn (fun i => S i ∨ i = t) d' := by
  obtain ⟨agent, a', hag, hset, heps, hepsm⟩ := Tab_runTurn_eps_set rng true d t d' h
  intro i hi a hia
  rw [hset] at hia
  by_cases hit : i = t
  · subst hit
    have hlt : i < d.agents.length := (List.getElem?_eq_some.mp hag).1
    rw [List.getElem?_set_eq_of_lt a' hlt] at hia
    have ha : a = a' := (Option.some.inj hia).symm
    subst ha
    simp only [if_true] at heps hepsm
    exact ⟨heps, hepsm⟩
  · rw [List.getElem?_set_ne (fun hc => hit hc.symm)] at hia
    rcases hi with hi | hi
    · exact hW i hi a hia
    · exact absurd hi hit

/-- A fold of `run_draft`-mode turns zeroes the epsilons of every acted
index. -/
theorem TabEpsZeroOn_foldTurns (rng : Nat → ℚ × Nat) :
    ∀ (order : List Nat) (d d' : Tab.FantasyDraft) (S : Nat → Prop),
      Tab.foldTurns (Tab.FantasyDraft.runTurn rng true) d order = .ok d' →
      TabEpsZeroOn S d → TabEpsZeroOn (fun i => S i ∨ i ∈ order) d'
  | [], d, d', S, h, hW => by
    simp only [Tab.foldTurns] at h
    have hd : d = d' := Except.ok.inj h
    subst hd
    intro i hi a hia
    rcases hi with hi | hi
    · exact hW i hi a hia
    · exact absurd hi (List.not_mem_nil i)
  | t :: ts, d, d', S, h, hW => by
    simp only [Tab.foldTurns] at h
    cases ht : Tab.FantasyDraft.runTurn rng true d t with
    | error e =>
      rw [ht] at h
      simp at h
    | ok m =>
      rw [ht] at h
      have hm := TabEpsZeroOn_foldTurns rng ts m d' (fun i => S i ∨ i = t) h
        (TabEpsZeroOn_turn rng d t m S ht hW)
      intro i hi a hia
      apply hm i _ a hia
      rcases hi with hi | hi
      · exact Or.inl (Or.inl hi)
      · rcases List.mem_cons.mp hi with rfl | hi
        · exact Or.inl (Or.inr rfl)
        · exact Or.inr hi

/-- Once every agent's epsilons are zero, further `run_draft` rounds keep them
zero. -/
theorem TabEpsZeroOn_runRounds (rng : Nat → ℚ × Nat) :
    ∀ (n : Nat) (d d' : Tab.FantasyDraft),
      Tab.FantasyDraft.runRounds rng true n d = .ok d' →
      TabEpsZeroOn (fun _ => True) d → TabEpsZeroOn (fun _ => True) d'
  | 0, d, d', h, hW => by
    simp only [Tab_runRounds_zero] at h
    exact (Except.ok.inj h) ▸ hW
  | n + 1, d, d', h, hW => by
    rw [Tab_runRounds_succ] at h
    cases hf : Tab.foldTurns (Tab.FantasyDraft.runTurn rng true) d
        d.draft_order with
    | error e =>
      rw [hf] at h
      simp at h
    | ok m =>
      rw [hf] at h
      have hm := TabEpsZeroOn_foldTurns rng d.draft_order d m _ hf hW
      apply TabEpsZeroOn_runRounds rng n _ d' h
      intro i _ a hia
      exact hm i (Or.inl trivial) a hia

/-- Tabular turns preserve the number of agents. -/
theorem Tab_runTurn_agents_length (rng : Nat → ℚ × Nat) (z : Bool)
    (d : Tab.FantasyDraft) (t : Nat) (d' : Tab.FantasyDraft)
    (h : Tab.FantasyDraft.runTurn rng z d t = .ok d') :
    d'.agents.length = d.agents.length := by
  obtain ⟨agent, a', _, hset, _, _⟩ := Tab_runTurn_eps_set rng z d t d' h
  rw [hset, List.length_set]

/-- Folds of tabular turns preserve the number of agents. -/
theorem Tab_foldTurns_agents_length (rng : Nat → ℚ × Nat) (z : Bool) :
    ∀ (order : List Nat) (d d' : Tab.FantasyDraft),
      Tab.foldTurns (Tab.FantasyDraft.runTurn rng z) d order = .ok d' →
      d'.agents.length = d.agents.length
  | [], d, d', h => by
    simp only [Tab.foldTurns] at h
    exact (Except.ok.inj h) ▸ rfl
  | t :: ts, d, d', h => by
    simp only [Tab.foldTurns] at h
    cases ht : Tab.FantasyDraft.runTurn rng z d t with
    | error e =>
      rw [ht] at h
      simp at h
    | ok m =>
      rw [ht] at h
      exact (Tab_foldTurns_agents_length rng z ts m d' h).trans
        (Tab_runTurn_agents_length rng z d t m ht)

/-- A `run_episode`-mode (`zeroEps = false`) turn never changes any agent's
epsilons. -/
theorem Tab_runTurn_false_epsmap (rng : Nat → ℚ × Nat) (d : Tab.FantasyDraft)
    (t : Nat) (d' : Tab.FantasyDraft)
    (h : Tab.FantasyDraft.runTurn rng false d t = .ok d') :
    d'.agents.map (fun a => (a.epsilon, a.epsilon_min)) =
      d.agents.map (fun a => (a.epsilon, a.epsilon_min)) := by
  obtain ⟨agent, a', hag, hset, heps, hepsm⟩ :=
    Tab_runTurn_eps_set rng false d t d' h
  have heps2 : a'.epsilon = agent.epsilon := by simpa using heps
  have hepsm2 : a'.epsilon_min = agent.epsilon_min := by simpa using hepsm
  rw [hset]
  exact map_set_eq_of_proj (fun a => (a.epsilon, a.epsilon_min)) d.agents t
    agent a' hag (by dsimp only; rw [heps2, hepsm2])

/-- Folds of `run_episode`-mode turns never change any agent's epsilons. -/
theorem Tab_foldTurns_false_epsmap (rng : Nat → ℚ × Nat) :
    ∀ (order : List Nat) (d d' : Tab.FantasyDraft),
      Tab.foldTurns (Tab.FantasyDraft.runTurn rng false) d order = .ok d' →
      d'.agents.map (fun a => (a.epsilon, a.epsilon_min)) =
        d.agents.map (fun a => (a.epsilon, a.epsilon_min))
  | [], d, d', h => by
    simp only [Tab.foldTurns] at h
    exact (Except.ok.inj h) ▸ rfl
  | t :: ts, d, d', h => by
    simp only [Tab.foldTurns] at h
    cases ht : Tab.FantasyDraft.runTurn rng false d t with
    | error e =>
      rw [ht] at h
      simp at h
    | ok m =>
      rw [ht] at h
      exact (Tab_foldTurns_false_epsmap rng ts m d' h).trans
        (Tab_runTurn_false_epsmap rng d t m ht)

/-- The `run_episode` round loop never changes any agent's epsilons. -/
theorem Tab_runRounds_false_epsmap (rng : Nat → ℚ × Nat) :
    ∀ (n : Nat) (d d' : Tab.FantasyDraft),
      Tab.FantasyDraft.runRounds rng false n d = .ok d' →
      d'.agents.map (fun a => (a.epsilon, a.epsilon_min)) =
        d.agents.map (fun a => (a.epsilon, a.epsilon_min))
  | 0, d, d', h => by
    simp only [Tab_runRounds_zero] at h
    exact (Except.ok.inj h) ▸ rfl
  | n + 1, d, d', h => by
    rw [Tab_runRounds_succ] at h
    cases hf : Tab.foldTurns (Tab.FantasyDraft.runTurn rng false) d
        d.draft_order with
    | error e =>
      rw [hf] at h
      simp at h
    | ok m =>
      rw [hf] at h
      exact (Tab_runRounds_false_epsmap rng n _ d' h).trans
        (Tab_foldTurns_false_epsmap rng d.draft_order d m hf)

/-- C10: (i) after a completed `run_draft`, every agent's `epsilon` and
`epsilon_min` are `0`; (ii) the per-episode decay step of `train` maps the
pair `(0, 0)` to `(0, 0)` (i.e. `max(0 × decay, 0) = 0`), so epsilon stays
`0` through every later `train` episode; (iii) `run_episode` never changes
any agent's epsilons; (iv) with `epsilon = 0`, `choose_action` always takes
the greedy branch (a `random.random()` value, being non-negative, never beats
`0`), so no later episode takes a random exploratory action. -/
theorem C10_exploration_permanently_off :
    (∀ (rng : Nat → ℚ × Nat) (d d' : Tab.FantasyDraft),
      d.agents.length = d.num_teams → 0 < d.num_rounds →
      d.run_draft rng = .ok d' →
      ∀ a ∈ d'.agents, a.epsilon = 0 ∧ a.epsilon_min = 0) ∧
    (∀ a : Tab.QAgent, a.epsilon = 0 → a.epsilon_min = 0 →
      a.decayEpsilon.epsilon = 0 ∧ a.decayEpsilon.epsilon_min = 0) ∧
    (∀ (rng : Nat → ℚ × Nat) (d d' : Tab.FantasyDraft),
      d.run_episode rng = .ok d' →
      d'.agents.map (fun a => (a.epsilon, a.epsilon_min)) =
        d.agents.map (fun a => (a.epsilon, a.epsilon_min))) ∧
    (∀ (ag : Tab.QAgent) (st : Tab.TState) (avail : List Player) (rv : ℚ)
        (ri : Nat), ag.epsilon = 0 → 0 ≤ rv →
      ag.choose_action st avail rv ri =
        argmaxKey (fun p => ag.q_table (st, p)) (avail.map (fun p => p.idx))) := by
  refine ⟨?_, ?_, ?_, ?_⟩
  · intro rng d d' hlen hpos h
    unfold Tab.FantasyDraft.run_draft at h
    cases hnr : d.num_rounds with
    | zero => omega
    | succ n =>
      rw [hnr, Tab_runRounds_succ] at h
      cases hf : Tab.foldTurns (Tab.FantasyDraft.runTurn rng true)
          d.reset_draft d.reset_draft.draft_order with
      | error e =>
        rw [hf] at h
        simp at h
      | ok m =>
        rw [hf] at h
        have hWm := TabEpsZeroOn_foldTurns rng d.reset_draft.draft_order
          d.reset_draft m (fun _ => False) hf (fun i hi => absurd hi not_false)
        have hmlen : m.agents.length = d.agents.length := by
          have h1 := Tab_foldTurns_agents_length rng true
            d.reset_draft.draft_order d.reset_draft m hf
          have h2 : d.reset_draft.agents.length = d.agents.length := by
            simp [Tab.FantasyDraft.reset_draft]
          exact h1.trans h2
        have hZ : TabEpsZeroOn (fun _ => True) m := by
          intro i _ a hia
          have hilt : i < m.agents.length := (List.getElem?_eq_some.mp hia).1
          apply hWm i _ a hia
          refine Or.inr ?_
          have hro : d.reset_draft.draft_order = List.range d.num_teams := rfl
          rw [hro]
          apply List.mem_range.mpr
          omega
        have hZ2 := TabEpsZeroOn_runRounds rng n
          { m with current_round := m.current_round + 1,
                   draft_order := m.draft_order.reverse } d' h
          (fun i _ a hia => hZ i trivial a hia)
        intro a ha
        obtain ⟨i, hia⟩ := List.mem_iff_getElem?.mp ha
        exact hZ2 i trivial a hia
  · intro a h1 h2
    constructor
    · simp [Tab.QAgent.decayEpsilon, h1, h2]
    · simp [Tab.QAgent.decayEpsilon, h2]
  · intro rng d d' h
    unfold Tab.FantasyDraft.run_episode at h
    have h1 := Tab_runRounds_false_epsmap rng d.num_rounds d.reset_draft d' h
    have h2 : d.reset_draft.agents.map (fun a => (a.epsilon, a.epsilon_min)) =
        d.agents.map (fun a => (a.epsilon, a.epsilon_min)) := by
      unfold Tab.FantasyDraft.reset_draft
      dsimp only
      rw [List.map_map]
      rfl
    exact h1.trans h2
  · intro ag st avail rv ri heps hrv
    unfold Tab.QAgent.choose_action
    rw [if_neg]
    rw [heps]
    exact not_lt.mpr hrv

/-- A `run_episode` right after the first draft (epsilons already zero, so
greedy throughout) reproduces the second draft's state. -/
theorem cexRunEp_eval : cexD1.run_episode trng = .ok cexD2 := by
  norm_num [Tab.FantasyDraft.run_episode, Tab_runRounds_one,
    Tab.FantasyDraft.reset_draft, Tab.QAgent.reset_agent, Tab.foldTurns,
    Tab.FantasyDraft.runTurn, cexD1, cexD1agent, cexD2agent, cexD2,
    playerA, playerB, trng, Tab.QAgent.get_state, Tab.QAgent.choose_action,
    Tab.QAgent.update_q_table, Tab.position_limits, argmaxKey, sortStr,
    insertSorted, dropIdx, List.filter_cons, List.find?, List.range_succ]
  simp

/-- Witness for C10 at the concrete tabular draft. -/
theorem C10_witness :
    (∀ a ∈ cexD1.agents, a.epsilon = 0 ∧ a.epsilon_min = 0) ∧
    (cexD1agent.decayEpsilon.epsilon = 0 ∧
      cexD1agent.decayEpsilon.epsilon_min = 0) ∧
    (cexD2.agents.map (fun a => (a.epsilon, a.epsilon_min)) =
      cexD1.agents.map (fun a => (a.epsilon, a.epsilon_min))) ∧
    (cexD1agent.choose_action (([], 0) : Tab.TState) [playerA] 0 0 =
      argmaxKey (fun p => cexD1agent.q_table ((([], 0) : Tab.TState), p))
        ([playerA].map (fun p => p.idx))) :=
  ⟨C10_exploration_permanently_off.1 trng cexDraftTab cexD1 rfl (by decide)
     cexRun1_eval,
   C10_exploration_permanently_off.2.1 cexD1agent rfl rfl,
   C10_exploration_permanently_off.2.2.1 trng cexD1 cexD2 cexRunEp_eval,
   C10_exploration_permanently_off.2.2.2 cexD1agent ([], 0) [playerA] 0 0 rfl
     (le_refl 0)⟩
